import Mathlib

/-!
Verification of the Secure-JWT token lifecycle engine.

The development shallowly embeds the TypeScript source of the repository:
pure functions become Lean functions, the caches become explicit state
passing, machine numbers are modelled with `Nat`/`Int`, and code that
throws is modelled with `Except`/`Option`.  External collaborators that
the source calls (the Node `crypto` AEAD primitives, PBKDF2, the secure
RNG and `JSON.parse`) are modelled as oracle parameters; the contracts
the system expects from them appear as explicit hypotheses.  Base64 and
hex codecs (Node `Buffer` conversions) are implemented concretely and
verified, because the token-format checks of the source inspect their
output character by character.

Notes on the embedding:
  * JSON values are modelled by the inductive `JVal`; numbers are
    modelled as integers (the timestamps of the protocol are integers,
    and `Number.isInteger` checks in the source demand it).
  * `Date.now()` becomes an explicit `now : Nat` (epoch milliseconds)
    argument; one value is used per operation.
  * The eviction score `accessCount + age / 1000` of the cache is a real
    number in JavaScript; it is modelled exactly by the scaled integer
    `accessCount * 1000 + age`, which preserves all comparisons.
-/

namespace SJ

/-- Byte strings (`Buffer`) are lists of naturals, each expected `< 256`. -/
abbrev Bytes := List Nat

/-- Lower-case hex digit for a value `< 16` (also the decimal digit for `< 10`). -/
def hexDigitChar (n : Nat) : Char :=
  if n < 10 then Char.ofNat (48 + n) else Char.ofNat (87 + n)

/-- Two lower-case hex characters of one byte, as `Buffer.toString('hex')` prints it. -/
def hexOfByte (b : Nat) : List Char :=
  [hexDigitChar (b / 16), hexDigitChar (b % 16)]

/-- `Buffer.toString('hex')` over a whole byte string. -/
def hexEncodeChars (bs : Bytes) : List Char :=
  bs.flatMap hexOfByte

/-- `Buffer.toString('hex')` as a Lean string. -/
def hexEncode (bs : Bytes) : String :=
  String.mk (hexEncodeChars bs)

/-- Value of a hex character, upper or lower case, as `Buffer.from(_, 'hex')` reads it. -/
def hexCharVal (c : Char) : Option Nat :=
  if 48 ≤ c.toNat ∧ c.toNat ≤ 57 then some (c.toNat - 48)
  else if 97 ≤ c.toNat ∧ c.toNat ≤ 102 then some (c.toNat - 87)
  else if 65 ≤ c.toNat ∧ c.toNat ≤ 70 then some (c.toNat - 55)
  else none

/-- Whether a character belongs to `[0-9a-fA-F]`. -/
def isHexChar (c : Char) : Bool :=
  (hexCharVal c).isSome

/-- `Buffer.from(_, 'hex')`: consume pairs of hex characters, stopping at the
first invalid or incomplete pair (Node truncates there). -/
def hexDecodeChars : List Char → Bytes
  | c1 :: c2 :: rest =>
    match hexCharVal c1, hexCharVal c2 with
    | some h, some l => (16 * h + l) :: hexDecodeChars rest
    | _, _ => []
  | _ => []

/-- `Buffer.from(s, 'hex')` on a Lean string. -/
def hexDecode (s : String) : Bytes :=
  hexDecodeChars s.data

/-! ### Base64 (Node `Buffer.toString('base64')` / `Buffer.from(_, 'base64')`) -/

/-- Character of one sextet in the standard base64 alphabet. -/
def b64CharOf (n : Nat) : Char :=
  if n < 26 then Char.ofNat (65 + n)
  else if n < 52 then Char.ofNat (97 + (n - 26))
  else if n < 62 then Char.ofNat (48 + (n - 52))
  else if n = 62 then '+'
  else '/'

/-- Sextet of a base64 alphabet character; `none` for `=` and anything
else (Node's lenient decoder skips such characters). -/
def b64ValOf (c : Char) : Option Nat :=
  if 65 ≤ c.toNat ∧ c.toNat ≤ 90 then some (c.toNat - 65)
  else if 97 ≤ c.toNat ∧ c.toNat ≤ 122 then some (c.toNat - 71)
  else if 48 ≤ c.toNat ∧ c.toNat ≤ 57 then some (c.toNat + 4)
  else if c = '+' then some 62
  else if c = '/' then some 63
  else none

/-- Bytes to sextets, three bytes giving four sextets, with the final
partial group of one or two bytes giving two or three sextets. -/
def bytesToSextets : Bytes → List Nat
  | b0 :: b1 :: b2 :: rest =>
      b0 / 4 :: ((b0 % 4) * 16 + b1 / 16) :: ((b1 % 16) * 4 + b2 / 64) :: (b2 % 64) ::
        bytesToSextets rest
  | [b0, b1] => [b0 / 4, (b0 % 4) * 16 + b1 / 16, (b1 % 16) * 4]
  | [b0] => [b0 / 4, (b0 % 4) * 16]
  | [] => []

/-- Number of `=` padding characters base64 appends for a byte count. -/
def b64PadCount (n : Nat) : Nat :=
  (3 - n % 3) % 3

/-- `Buffer.toString('base64')` as a character list. -/
def b64EncodeChars (bs : Bytes) : List Char :=
  (bytesToSextets bs).map b64CharOf ++ List.replicate (b64PadCount bs.length) '='

/-- `Buffer.toString('base64')` as a Lean string. -/
def b64Encode (bs : Bytes) : String :=
  String.mk (b64EncodeChars bs)

/-- Sextets back to bytes, inverting `bytesToSextets`; trailing
lone sextets are dropped, as Node does. -/
def sextetsToBytes : List Nat → Bytes
  | a :: b :: c :: d :: rest =>
      (a * 4 + b / 16) :: ((b % 16) * 16 + c / 4) :: ((c % 4) * 64 + d) :: sextetsToBytes rest
  | [a, b, c] => [a * 4 + b / 16, (b % 16) * 16 + c / 4]
  | [a, b] => [a * 4 + b / 16]
  | _ => []

/-- `Buffer.from(s, 'base64')`: skip non-alphabet characters (including `=`),
then fold sextets into bytes.  Never throws. -/
def b64DecodeBytes (s : String) : Bytes :=
  sextetsToBytes (s.data.filterMap b64ValOf)

/-- Whether a character belongs to the base64 alphabet `[A-Za-z0-9+/]`. -/
def isB64Alpha (c : Char) : Bool :=
  (65 ≤ c.toNat && c.toNat ≤ 90) || (97 ≤ c.toNat && c.toNat ≤ 122) ||
    (48 ≤ c.toNat && c.toNat ≤ 57) || c = '+' || c = '/'

/-! ### JSON values and `JSON.stringify` -/

/-- JSON values.  Numbers are modelled as integers: every timestamp and
every structural check of the source (`Number.isInteger`) concerns
integers; non-integer numeric data is outside this model. -/
inductive JVal where
  | jnull : JVal
  | jbool : Bool → JVal
  | jnum : Int → JVal
  | jstr : String → JVal
  | jarr : List JVal → JVal
  | jobj : List (String × JVal) → JVal

/-- UTF-8 bytes of one character, as `Buffer.from(s, 'utf8')` produces. -/
def utf8Char (c : Char) : Bytes :=
  if c.toNat < 128 then [c.toNat]
  else if c.toNat < 2048 then [192 + c.toNat / 64, 128 + c.toNat % 64]
  else if c.toNat < 65536 then [224 + c.toNat / 4096, 128 + (c.toNat / 64) % 64, 128 + c.toNat % 64]
  else [240 + c.toNat / 262144, 128 + (c.toNat / 4096) % 64, 128 + (c.toNat / 64) % 64,
    128 + c.toNat % 64]

/-- UTF-8 bytes of a character list. -/
def utf8Bytes (l : List Char) : Bytes :=
  l.flatMap utf8Char

/-- UTF-8 bytes of a string (`Buffer.from(s, 'utf8')`,
`Buffer.byteLength(s, 'utf8')` is its length). -/
def utf8Str (s : String) : Bytes :=
  utf8Bytes s.data

/-- `JSON.stringify` escaping of one character inside a string literal. -/
def jsonEscapeChar (c : Char) : List Char :=
  if c = '"' then ['\\', '"']
  else if c = '\\' then ['\\', '\\']
  else if c = '\x08' then ['\\', 'b']
  else if c = '\x0c' then ['\\', 'f']
  else if c = '\n' then ['\\', 'n']
  else if c = '\r' then ['\\', 'r']
  else if c = '\t' then ['\\', 't']
  else if c.toNat < 32 then
    ['\\', 'u', '0', '0', hexDigitChar (c.toNat / 16), hexDigitChar (c.toNat % 16)]
  else [c]

/-- `JSON.stringify` of a string: quotes around the escaped characters. -/
def jsonStringChars (s : String) : List Char :=
  '"' :: (s.data.flatMap jsonEscapeChar ++ ['"'])

/-- Decimal digits of a natural number, with structural fuel so that
the definition computes by kernel reduction. -/
def natToCharsAux : Nat → Nat → List Char
  | 0, _ => []
  | f + 1, n =>
    if n < 10 then [hexDigitChar n]
    else natToCharsAux f (n / 10) ++ [hexDigitChar (n % 10)]

/-- Decimal digits of a natural number. -/
def natToChars (n : Nat) : List Char :=
  natToCharsAux (n + 1) n

/-- Decimal printing of an integer, as `JSON.stringify` prints an
integral number. -/
def intToChars (i : Int) : List Char :=
  if i < 0 then '-' :: natToChars i.natAbs else natToChars i.natAbs

mutual

/-- `JSON.stringify` (no spacing, object keys in insertion order). -/
def stringifyChars : JVal → List Char
  | .jnull => ['n', 'u', 'l', 'l']
  | .jbool true => ['t', 'r', 'u', 'e']
  | .jbool false => ['f', 'a', 'l', 's', 'e']
  | .jnum i => intToChars i
  | .jstr s => jsonStringChars s
  | .jarr xs => '[' :: (stringifyArr xs ++ [']'])
  | .jobj fs => '\x7b' :: (stringifyObj fs ++ ['\x7d'])

/-- Comma-separated elements of an array. -/
def stringifyArr : List JVal → List Char
  | [] => []
  | [x] => stringifyChars x
  | x :: y :: rest => stringifyChars x ++ ',' :: stringifyArr (y :: rest)

/-- Comma-separated `"key":value` fields of an object. -/
def stringifyObj : List (String × JVal) → List Char
  | [] => []
  | [(k, v)] => jsonStringChars k ++ ':' :: stringifyChars v
  | (k, v) :: f :: rest =>
      jsonStringChars k ++ ':' :: stringifyChars v ++ ',' :: stringifyObj (f :: rest)

end

/-- `Buffer.from(JSON.stringify(v), 'utf8')`: the byte string the source
serializes, sizes and encrypts. -/
def stringifyBytes (v : JVal) : Bytes :=
  utf8Bytes (stringifyChars v)

/-! ### Error taxonomy (`src/utils/ErrorBase.ts`)

Each error class of the source carries a message, a machine code and a
status; the claims only depend on the class (kind), so the embedding
keeps the kind. -/

/-- The error kinds of the taxonomy. -/
inductive SJError where
  | validation : SJError
  | encryption : SJError
  | decryption : SJError
  | payloadTooLarge : SJError
  | tokenExpired : SJError
  | versionMismatch : SJError
  | secretKey : SJError
  | timeFormat : SJError
  deriving DecidableEq, Repr

/-- A check that either passes or throws. -/
abbrev Check := Except SJError Unit

/-- `[0-9]`. -/
def isDigitChar (c : Char) : Bool :=
  48 ≤ c.toNat && c.toNat ≤ 57

/-! ### `ErrorHandler` (`src/utils/ErrorHandler.ts`, the revision used by the
current `SecureJWT`: the one containing `validateCacheSize` and the
8..255-character secret rule) -/

namespace ErrorHandler

/-- `validateData`: rejects `null`/`undefined` (both modelled by `jnull`)
and the empty string. -/
def validateData : JVal → Check
  | .jnull => .error .validation
  | .jstr s => if s.data.length = 0 then .error .validation else .ok ()
  | _ => .ok ()

/-- `validateToken`: the `typeof` test is a type-level fact here; the
empty string is rejected. -/
def validateToken (token : String) : Check :=
  if token.data.length = 0 then .error .validation else .ok ()

/-- `validateSecret`: length at least 8, at most 255, and no character
with code below 32 or equal to 127 (DEL).  JavaScript counts UTF-16
units; the model counts code points, which coincides on the basic
multilingual plane. -/
def validateSecret (secret : String) : Check :=
  if secret.data.length < 8 then .error .secretKey
  else if secret.data.length > 255 then .error .secretKey
  else if secret.data.any (fun c => c.toNat < 32 || c.toNat == 127) then .error .secretKey
  else .ok ()

/-- Matcher for `^\d+\.\d+\.\d+$`: one `\d+\.` step. -/
def digitsDotStep (l : List Char) : Option (List Char) :=
  if (l.takeWhile isDigitChar).isEmpty then none
  else
    match l.dropWhile isDigitChar with
    | '.' :: rest => some rest
    | _ => none

/-- Matcher for the trailing `\d+$`. -/
def digitsEnd (l : List Char) : Bool :=
  !l.isEmpty && l.all isDigitChar

/-- Matcher for the semver regex `^\d+\.\d+\.\d+$`. -/
def semverMatch (l : List Char) : Bool :=
  match digitsDotStep l with
  | some r1 =>
    match digitsDotStep r1 with
    | some r2 => digitsEnd r2
    | none => false
  | none => false

/-- `validateVersion`. -/
def validateVersion (version : String) : Check :=
  if version.data.length = 0 then .error .validation
  else if semverMatch version.data then .ok ()
  else .error .validation

/-- `validateCacheSize`: integer between 1 and 10000 (the integrality
test is type-level for `Nat`). -/
def validateCacheSize (cached : Nat) : Check :=
  if cached < 1 then .error .validation
  else if cached > 10000 then .error .validation
  else .ok ()

/-- `validatePayloadSize`: `Buffer.byteLength(payload, 'utf8')` is the
length of the UTF-8 byte string the model carries. -/
def validatePayloadSize (payload : Bytes) (maxSize : Nat := 8192) : Check :=
  if payload.length > maxSize then .error .payloadTooLarge else .ok ()

/-- `validateExpiration`. -/
def validateExpiration (exp maxExp : Int) : Check :=
  if exp > maxExp then .error .validation else .ok ()

/-- `checkTokenExpiration` against `Math.floor(Date.now() / 1000)`. -/
def checkTokenExpiration (exp : Int) (now : Nat) : Check :=
  if exp < ((now / 1000 : Nat) : Int) then .error .tokenExpired else .ok ()

/-- `validateVersionCompatibility`: any difference throws a
`VersionMismatchError` (the downgrade/upgrade/mismatch branches of the
source all construct that same class). -/
def validateVersionCompatibility (tokenVersion expectedVersion : String) : Check :=
  if tokenVersion ≠ expectedVersion then .error .versionMismatch else .ok ()

/-- `validateIVFormat`: `^[0-9a-fA-F]{24,32}$`. -/
def validateIVFormat (iv : String) : Check :=
  if 24 ≤ iv.data.length ∧ iv.data.length ≤ 32 ∧ iv.data.all isHexChar then .ok ()
  else .error .decryption

/-- `validateTagFormat`: `^[0-9a-fA-F]{32}$`. -/
def validateTagFormat (tag : String) : Check :=
  if tag.data.length = 32 ∧ tag.data.all isHexChar then .ok ()
  else .error .decryption

/-- `validateKeyLength`: exactly 32 bytes. -/
def validateKeyLength (key : Bytes) : Check :=
  if key.length = 32 then .ok () else .error .encryption

/-- `validateAuthTag`: a non-empty tag buffer. -/
def validateAuthTag (tag : Bytes) : Check :=
  if tag.length = 0 then .error .encryption else .ok ()

/-- `validateTokenTimestamps`. -/
def validateTokenTimestamps (payloadExp tokenExp payloadIat tokenIat : Int) : Check :=
  if payloadExp ≠ tokenExp ∨ payloadIat ≠ tokenIat then .error .validation else .ok ()

/-- The base64 regex `^[A-Za-z0-9+/]*={0,2}$` of `validateTokenIntegrity`:
an alphabet body followed by at most two `=`. -/
def matchesB64Regex (l : List Char) : Bool :=
  let pads := l.reverse.takeWhile (fun c => c = '=')
  pads.length ≤ 2 && (l.reverse.drop pads.length).all isB64Alpha

/-- `validateTokenIntegrity`, checks in source order. -/
def validateTokenIntegrity (token : String) : Check :=
  if ¬ matchesB64Regex token.data then .error .validation
  else if token.data.length < 10 then .error .validation
  else if token.data.length > 100000 then .error .validation
  else if (token.data.filter (fun c => c = '=')).length > 2 then .error .validation
  else if token.data.length % 4 ≠ 0 then .error .validation
  else .ok ()

/-- First field of the given name in a parsed JSON object
(`JSON.parse` output carries no duplicate keys). -/
def jGet (fs : List (String × JVal)) (k : String) : Option JVal :=
  (fs.find? (fun p => p.1 = k)).map (fun p => p.2)

/-- `validateTokenDataIntegrity`, checks in source order.  A non-object
parse result fails the `typeof`/field-presence tests of the source with
the same `ValidationError` kind. -/
def validateTokenDataIntegrity (v : JVal) (now : Nat) : Check :=
  match v with
  | .jobj fs =>
    if (jGet fs "encrypted").isNone ∨ (jGet fs "iv").isNone ∨ (jGet fs "tag").isNone ∨
        (jGet fs "exp").isNone ∨ (jGet fs "iat").isNone ∨ (jGet fs "version").isNone then
      .error .validation
    else
      match jGet fs "encrypted", jGet fs "iv", jGet fs "tag",
          jGet fs "exp", jGet fs "iat", jGet fs "version" with
      | some (.jstr e), some (.jstr iv), some (.jstr tag),
          some (.jnum exp), some (.jnum iat), some (.jstr ver) =>
        if e.data.length = 0 then .error .validation
        else if iv.data.length = 0 then .error .validation
        else if tag.data.length = 0 then .error .validation
        else if exp ≤ 0 then .error .validation
        else if iat ≤ 0 then .error .validation
        else if ver.data.length = 0 then .error .validation
        else if iat > exp then .error .validation
        else if iat < ((now / 1000 : Nat) : Int) - 31536000 then .error .validation
        else if exp > ((now / 1000 : Nat) : Int) + 31536000 then .error .validation
        else .ok ()
      | _, _, _, _, _, _ => .error .validation
  | _ => .error .validation

end ErrorHandler

/-! ### `Validator.ts` type guards -/

/-- The declared token envelope (`TokenData` of `@interfaces/index`). -/
structure TokenDataR where
  encrypted : String
  iv : String
  tag : String
  exp : Int
  iat : Int
  version : String
  deriving DecidableEq, Repr

/-- The declared inner payload (`PayloadData` of `@interfaces/index`). -/
structure PayloadR where
  data : JVal
  exp : Int
  iat : Int
  version : String

/-- `isValidTokenData`: presence and `typeof` of the six fields; on
success the embedding also records the narrowed record the source goes
on to read. -/
def isValidTokenData (v : JVal) : Option TokenDataR :=
  match v with
  | .jobj fs =>
    match ErrorHandler.jGet fs "encrypted", ErrorHandler.jGet fs "iv",
        ErrorHandler.jGet fs "tag", ErrorHandler.jGet fs "exp",
        ErrorHandler.jGet fs "iat", ErrorHandler.jGet fs "version" with
    | some (.jstr e), some (.jstr iv), some (.jstr tag),
        some (.jnum exp), some (.jnum iat), some (.jstr ver) =>
      some ⟨e, iv, tag, exp, iat, ver⟩
    | _, _, _, _, _, _ => none
  | _ => none

/-- `isValidPayloadData`: `data` only has to be present (any type,
including `null`); `exp`/`iat`/`version` are type-checked. -/
def isValidPayloadData (v : JVal) : Option PayloadR :=
  match v with
  | .jobj fs =>
    match ErrorHandler.jGet fs "data", ErrorHandler.jGet fs "exp",
        ErrorHandler.jGet fs "iat", ErrorHandler.jGet fs "version" with
    | some d, some (.jnum exp), some (.jnum iat), some (.jstr ver) =>
      some ⟨d, exp, iat, ver⟩
    | _, _, _, _ => none
  | _ => none

/-! ### Time expression parser (`src/utils/TimeParser.ts`) -/

/-- The whitespace characters `String.prototype.trim` strips (the common
ASCII subset; the token grammar only involves ASCII). -/
def isWsChar (c : Char) : Bool :=
  c = ' ' || c = '\t' || c = '\n' || c = '\r' || c = '\x0b' || c = '\x0c'

/-- `timeString.trim()`. -/
def strTrim (s : String) : List Char :=
  ((s.data.dropWhile isWsChar).reverse.dropWhile isWsChar).reverse

/-- `parseInt(digits, 10)` on a non-empty digit run. -/
def digitsToNat (l : List Char) : Nat :=
  l.foldl (fun a c => a * 10 + (c.toNat - 48)) 0

/-- The value and unit recognised by the time regex. -/
structure TimeUnitV where
  value : Nat
  unit : String
  deriving DecidableEq, Repr

/-- The unit alternatives of `^(\d+)(ms|s|m|h|d|M|y)$`. -/
def timeUnitStrings : List String :=
  ["ms", "s", "m", "h", "d", "M", "y"]

/-- `parseTimeString`: the regex `^(\d+)(ms|s|m|h|d|M|y)$` (note: the
source accepts only integer values, there is no fractional part), then
the positivity test. -/
def parseTimeString (s : String) : Except SJError TimeUnitV :=
  let ds := s.data.takeWhile isDigitChar
  let rest := s.data.dropWhile isDigitChar
  if ds.isEmpty then .error .timeFormat
  else if ¬ timeUnitStrings.contains (String.mk rest) then .error .timeFormat
  else if digitsToNat ds = 0 then .error .timeFormat
  else .ok ⟨digitsToNat ds, String.mk rest⟩

/-- `timeToMs`: the unit switch. -/
def timeToMs (t : TimeUnitV) : Except SJError Nat :=
  if t.unit = "ms" then .ok t.value
  else if t.unit = "s" then .ok (t.value * 1000)
  else if t.unit = "m" then .ok (t.value * 60 * 1000)
  else if t.unit = "h" then .ok (t.value * 60 * 60 * 1000)
  else if t.unit = "d" then .ok (t.value * 24 * 60 * 60 * 1000)
  else if t.unit = "M" then .ok (t.value * 30 * 24 * 60 * 60 * 1000)
  else if t.unit = "y" then .ok (t.value * 365 * 24 * 60 * 60 * 1000)
  else .error .timeFormat

/-- `ErrorHandler.validateTimeString`: a non-empty string. -/
def validateTimeStringOk (s : String) : Check :=
  if s.data.length = 0 then .error .timeFormat else .ok ()

/-- `parsetimeToMs`: validate, trim, match, convert, cap at 365 days. -/
def parsetimeToMs (s : String) : Except SJError Nat := do
  _ ← validateTimeStringOk s
  let tu ← parseTimeString (String.mk (strTrim s))
  let ms ← timeToMs tu
  if ms > 31536000000 then .error .timeFormat else pure ms

/-- The unit multiplier table of spec §4.1 (ms=1, s=1000, m=60000,
h=3.6e6, d=8.64e7, M=30d, y=365d). -/
def timeUnitMult (u : String) : Option Nat :=
  if u = "ms" then some 1
  else if u = "s" then some 1000
  else if u = "m" then some 60000
  else if u = "h" then some 3600000
  else if u = "d" then some 86400000
  else if u = "M" then some 2592000000
  else if u = "y" then some 31536000000
  else none

/-- Modelled from the spec (claim C4, amended): the trimmed input must
match `^(\d+)(ms|s|m|h|d|M|y)$` with a positive value whose product
with the unit multiplier does not exceed 365 days; the product in
milliseconds is returned. -/
def specTimeMsInt (s : String) : Option Nat :=
  let l := strTrim s
  let ds := l.takeWhile isDigitChar
  let rest := l.dropWhile isDigitChar
  if ds.isEmpty then none
  else
    match timeUnitMult (String.mk rest) with
    | none => none
    | some mult =>
      if digitsToNat ds = 0 then none
      else if digitsToNat ds * mult > 31536000000 then none
      else some (digitsToNat ds * mult)

/-- Modelled from the spec (claim C4, as stated): the trimmed input
must match `^(\d+(\.\d+)?)(ms|s|m|h|d|M|y)$` with a positive (possibly
fractional) value whose product with the unit multiplier does not
exceed 365 days; the product in milliseconds is returned. -/
def specTimeMsDec (s : String) : Option ℚ :=
  let l := strTrim s
  let ds := l.takeWhile isDigitChar
  let r1 := l.dropWhile isDigitChar
  if ds.isEmpty then none
  else
    let fracAndRest : Option (List Char × List Char) :=
      match r1 with
      | '.' :: r =>
        if (r.takeWhile isDigitChar).isEmpty then none
        else some (r.takeWhile isDigitChar, r.dropWhile isDigitChar)
      | _ => some ([], r1)
    match fracAndRest with
    | none => none
    | some (fd, rest) =>
      match timeUnitMult (String.mk rest) with
      | none => none
      | some mult =>
        let v : ℚ := (digitsToNat ds : ℚ) + (digitsToNat fd : ℚ) / ((10 : ℚ) ^ fd.length)
        if 0 < v ∧ v * (mult : ℚ) ≤ 31536000000 then some (v * (mult : ℚ)) else none

/-! ### Bounded cache (the `Cache` class exported through `@utils/Cache`)

The JavaScript `Map` is modelled by an association list in insertion
order: `Map.set` updates in place or appends, `Map.delete` removes the
(unique) binding, and iteration follows the list.  `Date.now()` becomes
the explicit `now` argument, one value per operation. -/

/-- `CacheEntry<T>`. -/
structure CEntry (T : Type) where
  data : T
  expiresAt : Nat
  createdAt : Nat
  accessCount : Nat
  deriving Repr

/-- The state of one `Cache<T>` instance. -/
structure CacheSt (T : Type) where
  entries : List (String × CEntry T)
  maxSize : Nat
  defaultTTL : Nat
  deriving Repr

/-- `Map.get`. -/
def mapFind {T : Type} (entries : List (String × CEntry T)) (k : String) : Option (CEntry T) :=
  (entries.find? (fun p => p.1 = k)).map (fun p => p.2)

/-- `Map.has`. -/
def containsKey {T : Type} (entries : List (String × CEntry T)) (k : String) : Bool :=
  (mapFind entries k).isSome

/-- `Map.set`: replace in place, else append. -/
def mapSet {T : Type} : List (String × CEntry T) → String → CEntry T →
    List (String × CEntry T)
  | [], k, e => [(k, e)]
  | (k0, e0) :: rest, k, e =>
    if k0 = k then (k, e) :: rest else (k0, e0) :: mapSet rest k e

/-- `Map.delete` of the first binding of the key. -/
def mapDelete {T : Type} : List (String × CEntry T) → String → List (String × CEntry T)
  | [], _ => []
  | (k0, e0) :: rest, k => if k0 = k then rest else (k0, e0) :: mapDelete rest k

namespace Cache

/-- The constructor: capacity floored at 1000, default TTL floored at
1 ms (an absent TTL is `?? 0` in the source). -/
def init (T : Type) (maxSize : Nat) (defaultTTL : Nat) : CacheSt T :=
  ⟨[], max 1000 maxSize, max 1 defaultTTL⟩

/-- `get`: lazy expiry deletion, otherwise bump `accessCount` and
return the data. -/
def get {T : Type} (st : CacheSt T) (key : String) (now : Nat) : CacheSt T × Option T :=
  match mapFind st.entries key with
  | none => (st, none)
  | some e =>
    if now > e.expiresAt then ({ st with entries := mapDelete st.entries key }, none)
    else
      ({ st with entries := mapSet st.entries key { e with accessCount := e.accessCount + 1 } },
        some e.data)

/-- `has`: same lazy expiry and `accessCount` bump as `get`. -/
def has {T : Type} (st : CacheSt T) (key : String) (now : Nat) : CacheSt T × Bool :=
  match mapFind st.entries key with
  | none => (st, false)
  | some e =>
    if now > e.expiresAt then ({ st with entries := mapDelete st.entries key }, false)
    else
      ({ st with entries := mapSet st.entries key { e with accessCount := e.accessCount + 1 } },
        true)

/-- The eviction score `accessCount + (now - createdAt) / 1000`, scaled
by 1000 to an exact integer. -/
def scoreOf {T : Type} (now : Nat) (e : CEntry T) : Nat :=
  e.accessCount * 1000 + (now - e.createdAt)

/-- `Number.MAX_SAFE_INTEGER`, scaled like the scores. -/
def msiScaled : Nat := 9007199254740991 * 1000

/-- The scan of `evictLRU`: starting from `('', MAX_SAFE_INTEGER)`,
adopt an entry whenever its score is strictly smaller. -/
def evictPick {T : Type} (now : Nat) (entries : List (String × CEntry T)) : String × Nat :=
  entries.foldl
    (fun best p => if scoreOf now p.2 < best.2 then (p.1, scoreOf now p.2) else best)
    ("", msiScaled)

/-- `evictLRU`: delete the picked key — but only when the picked key is
truthy, i.e. not the empty string. -/
def evictLRU {T : Type} (st : CacheSt T) (now : Nat) : CacheSt T :=
  let best := evictPick now st.entries
  if best.1 ≠ "" then { st with entries := mapDelete st.entries best.1 } else st

/-- `set`: TTL floored at 1 ms, eviction only when the cache is at
capacity and the key is new, then `Map.set`. -/
def set {T : Type} (st : CacheSt T) (key : String) (value : T) (ttl : Option Nat)
    (now : Nat) : CacheSt T :=
  let requestedTTL := ttl.getD st.defaultTTL
  let finalTTL := max 1 requestedTTL
  let entry : CEntry T := ⟨value, now + finalTTL, now, 1⟩
  let st1 :=
    if st.entries.length ≥ st.maxSize ∧ containsKey st.entries key = false then
      evictLRU st now
    else st
  { st1 with entries := mapSet st1.entries key entry }

end Cache

/-- A `set`/`get`/`has` operation on one cache, with its `Date.now()`. -/
inductive CacheOp (T : Type) where
  | set : String → T → Option Nat → Nat → CacheOp T
  | get : String → Nat → CacheOp T
  | has : String → Nat → CacheOp T

/-- Apply one operation to a cache state. -/
def applyCacheOp {T : Type} (st : CacheSt T) : CacheOp T → CacheSt T
  | .set k v ttl now => Cache.set st k v ttl now
  | .get k now => (Cache.get st k now).1
  | .has k now => (Cache.has st k now).1

/-- Run a sequence of operations. -/
def runCacheOps {T : Type} (st : CacheSt T) (ops : List (CacheOp T)) : CacheSt T :=
  ops.foldl applyCacheOp st

/-- A key of `i + 1` repetitions of `a`, used to build many distinct
non-empty keys. -/
def aKey (i : Nat) : String :=
  String.mk (List.replicate (i + 1) 'a')

/-- The entry a `set` at time 0 with TTL defaulting to 1 ms creates. -/
def c6Entry : CEntry Bool :=
  ⟨true, 1, 0, 1⟩

/-- One thousand distinct keys, the empty string first. -/
def cexKeys : List String :=
  "" :: (List.range 999).map aKey

/-- A cache at its (minimum) capacity of 1000 whose first-inserted key
is the empty string and whose entries all carry the same eviction
score. -/
def c6State : CacheSt Bool :=
  ⟨cexKeys.map (fun k => (k, c6Entry)), 1000, 1⟩

/-- The operation sequence that overfills a fresh cache: insert the
empty-string key, then 999 further distinct keys, then one more. -/
def c5Ops : List (CacheOp Bool) :=
  cexKeys.map (fun k => CacheOp.set k true none 0) ++ [CacheOp.set "b" true none 0]

/-! ### Algorithm factory (`src/algorithms/index.ts`, class `Algorithms`) -/

/-- The cipher strategies the factory can construct: `AES256` and
`ChaCha20` are the only classes it imports and instantiates. -/
inductive AlgoI where
  | aes256gcm : AlgoI
  | chacha20poly1305 : AlgoI
  deriving DecidableEq, Repr

/-- `getIVLength`: 16 for AES-256-GCM (per its class and tests), 12 for
ChaCha20-Poly1305 (`src/algorithms/ChaCha20.ts`). -/
def AlgoI.getIVLength : AlgoI → Nat
  | .aes256gcm => 16
  | .chacha20poly1305 => 12

/-- `getKeyLength`: 32 bytes for both constructible strategies. -/
def AlgoI.getKeyLength : AlgoI → Nat
  | .aes256gcm => 32
  | .chacha20poly1305 => 32

namespace Algorithms

/-- `Algorithms.getInstance`: the dispatch of the factory in the source
recognises exactly `aes-256-gcm` and `chacha20-poly1305`; every other
name falls to the `else` branch and throws an `EncryptionError`. -/
def getInstance (algorithm : String) : Except SJError AlgoI :=
  if algorithm = "aes-256-gcm" then .ok .aes256gcm
  else if algorithm = "chacha20-poly1305" then .ok .chacha20poly1305
  else .error .encryption

/-- `getDerivedKeyBasic`: a fresh 32-byte salt (passed in here, drawn
from the RNG by the caller of the model) concatenated with the UTF-8
secret. -/
def getDerivedKeyBasic (salt : Bytes) (secret : String) : Bytes :=
  salt ++ utf8Str secret

end Algorithms

/-! ### The token handler (`SecureJWT`, `src/algorithms/index.ts`) -/

/-- The encrypted block a strategy returns (`TokenEncrypted`). -/
structure TokenEncryptedS where
  encrypted : String
  iv : String
  tag : String
  deriving DecidableEq, Repr

/-- The runtime collaborators of the handler.  `jsonParse` is
`JSON.parse` on UTF-8 bytes (`none` = throw); `encCore`/`decCore` are
the raw Node cipher objects (`createCipheriv`/`createDecipheriv` with
update/final/AAD/auth tag; `none` = throw); `randBytes` is the secure
RNG; `pbkdf2` is `pbkdf2Sync`. -/
structure Rt where
  jsonParse : Bytes → Option JVal
  encCore : Bytes → Bytes → Bytes → Bytes → Bytes × Bytes
  decCore : Bytes → Bytes → Bytes → Bytes → Bytes → Option Bytes
  randBytes : Nat → Bytes
  pbkdf2 : String → Bytes → Nat → Nat → Bytes

/-- The immutable state a constructed `SecureJWT` holds, plus its two
caches. -/
structure Handler where
  secretBuf : Bytes
  expireInMs : Nat
  version : String
  ivLen : Nat
  payloadCache : CacheSt JVal
  verifyCache : CacheSt Bool

/-- The AAD string `secure-jwt-<version>` both strategies bind. -/
def aadOf (version : String) : Bytes :=
  utf8Str ("secure-jwt-" ++ version)

namespace SecureJWT

/-- The key slice `this.#secret.subarray(0, 32)` used by both `encrypt`
and `decrypt`. -/
def cipherKey (h : Handler) : Bytes :=
  h.secretBuf.take 32

/-- A strategy's `encrypt` (`src/algorithms/ChaCha20.ts`; the AES-256
class, absent from the source tree, has the same shape per spec §4.3):
run the cipher core, demand a non-empty tag, hex-encode everything. -/
def strategyEncrypt (rt : Rt) (data key iv : Bytes) (version : String) :
    Except SJError TokenEncryptedS :=
  let ct := rt.encCore data key iv (aadOf version)
  match ErrorHandler.validateAuthTag ct.2 with
  | .error e => .error e
  | .ok _ => .ok ⟨hexEncode ct.1, hexEncode iv, hexEncode ct.2⟩

/-- A strategy's `decrypt`: hex-decode the block and run the cipher
core with the version-bound AAD. -/
def strategyDecrypt (rt : Rt) (te : TokenEncryptedS) (key : Bytes) (version : String) :
    Option Bytes :=
  rt.decCore (hexDecode te.encrypted) key (hexDecode te.iv) (hexDecode te.tag) (aadOf version)

/-- `SecureJWT.encrypt`: validate the key slice, draw a fresh IV of the
algorithm's length, delegate to the strategy
(`validateEncryptionData` is a `typeof` test, type-level here). -/
def encrypt (h : Handler) (rt : Rt) (data : Bytes) : Except SJError TokenEncryptedS := do
  let key := cipherKey h
  _ ← ErrorHandler.validateKeyLength key
  let iv := rt.randBytes h.ivLen
  strategyEncrypt rt data key iv h.version

/-- `SecureJWT.decrypt` with its catch clause: `ValidationError` and
`DecryptionError` pass through, anything else (including the
`EncryptionError` of `validateKeyLength` and cipher throws) is
re-raised as a `DecryptionError`. -/
def decrypt (h : Handler) (rt : Rt) (te : TokenEncryptedS) : Except SJError Bytes :=
  let body : Except SJError Bytes := do
    _ ← ErrorHandler.validateKeyLength (cipherKey h)
    _ ← ErrorHandler.validateIVFormat te.iv
    _ ← ErrorHandler.validateTagFormat te.tag
    match strategyDecrypt rt te (cipherKey h) h.version with
    | some pt => .ok pt
    | none => .error .decryption
  match body with
  | .ok pt => .ok pt
  | .error e =>
    if e = .validation ∨ e = .decryption then .error e else .error .decryption

/-- The payload object `{data, exp, iat, version}` in literal order. -/
def payloadJ (data : JVal) (exp iat : Int) (version : String) : JVal :=
  .jobj [("data", data), ("exp", .jnum exp), ("iat", .jnum iat), ("version", .jstr version)]

/-- The envelope object `{encrypted, iv, tag, exp, iat, version}` in
literal order. -/
def envelopeJ (te : TokenEncryptedS) (exp iat : Int) (version : String) : JVal :=
  .jobj [("encrypted", .jstr te.encrypted), ("iv", .jstr te.iv), ("tag", .jstr te.tag),
    ("exp", .jnum exp), ("iat", .jnum iat), ("version", .jstr version)]

/-- `SecureJWT.sign` with its catch clause (`ValidationError`,
`EncryptionError` and `PayloadTooLargeError` pass, anything else is
wrapped into a `ValidationError`). -/
def sign (h : Handler) (rt : Rt) (data : JVal) (now : Nat) : Except SJError String :=
  let body : Except SJError String := do
    _ ← ErrorHandler.validateData data
    let nowS : Int := ((now / 1000 : Nat) : Int)
    let exp : Int := nowS + max 1 (((h.expireInMs / 1000 : Nat) : Int))
    let maxExp : Int := nowS + 365 * 24 * 60 * 60
    _ ← ErrorHandler.validateExpiration exp maxExp
    let pbytes := stringifyBytes (payloadJ data exp nowS h.version)
    _ ← ErrorHandler.validatePayloadSize pbytes
    let te ← encrypt h rt pbytes
    .ok (b64Encode (stringifyBytes (envelopeJ te exp nowS h.version)))
  match body with
  | .ok tok => .ok tok
  | .error e =>
    if e = .validation ∨ e = .encryption ∨ e = .payloadTooLarge then .error e
    else .error .validation

/-- The shared validation pipeline, exactly the step sequence of
`verifyStrict` (and of the non-cache part of `verify` and `decode`,
whose `isValid…` failure branches surface here as the same
`ValidationError` outcome). -/
def pipelineStrict (h : Handler) (rt : Rt) (token : String) (now : Nat) :
    Except SJError (TokenDataR × PayloadR) := do
  _ ← ErrorHandler.validateToken token
  _ ← ErrorHandler.validateTokenIntegrity token
  let decoded := b64DecodeBytes token
  let envJ ← match rt.jsonParse decoded with
    | some v => Except.ok v
    | none => Except.error SJError.validation
  _ ← ErrorHandler.validateTokenDataIntegrity envJ now
  let td ← match isValidTokenData envJ with
    | some td => Except.ok td
    | none => Except.error SJError.validation
  _ ← ErrorHandler.validateVersionCompatibility td.version h.version
  _ ← ErrorHandler.checkTokenExpiration td.exp now
  let pt ← decrypt h rt ⟨td.encrypted, td.iv, td.tag⟩
  let plJ ← match rt.jsonParse pt with
    | some v => Except.ok v
    | none => Except.error SJError.validation
  let pl ← match isValidPayloadData plJ with
    | some pl => Except.ok pl
    | none => Except.error SJError.validation
  _ ← ErrorHandler.validateVersionCompatibility pl.version td.version
  _ ← ErrorHandler.checkTokenExpiration pl.exp now
  _ ← ErrorHandler.validateTokenTimestamps pl.exp td.exp pl.iat td.iat
  pure (td, pl)

/-- `SecureJWT.verifyStrict`: the pipeline, no cache, no catch. -/
def verifyStrict (h : Handler) (rt : Rt) (token : String) (now : Nat) :
    Except SJError Unit :=
  (pipelineStrict h rt token now).map (fun _ => ())

/-- The cache-miss part of `verify`: pipeline success caches `true`
with TTL `Math.max(0, exp*1000 - now)`, any failure caches `false`
with TTL 0 and yields `false`. -/
def verifyCore (h : Handler) (rt : Rt) (token : String) (now : Nat) : Handler × Bool :=
  match pipelineStrict h rt token now with
  | .ok (_, pl) =>
    let ttl : Nat := (pl.exp * 1000 - (now : Int)).toNat
    ({ h with verifyCache := Cache.set h.verifyCache token true (some ttl) now }, true)
  | .error _ =>
    ({ h with verifyCache := Cache.set h.verifyCache token false (some 0) now }, false)

/-- `SecureJWT.verify`: consult the verify cache (`has` then `get`,
both with their lazy-expiry side effects), then fall back to the
pipeline; the surrounding try/catch makes the whole function total. -/
def verify (h : Handler) (rt : Rt) (token : String) (now : Nat) : Handler × Bool :=
  let hs := Cache.has h.verifyCache token now
  let h1 := { h with verifyCache := hs.1 }
  if hs.2 then
    let gt := Cache.get h1.verifyCache token now
    let h2 := { h1 with verifyCache := gt.1 }
    match gt.2 with
    | some b => (h2, b)
    | none => verifyCore h2 rt token now
  else verifyCore h1 rt token now

/-- The error filter of `decode`'s catch clause: the four listed error
classes re-raise, anything else is wrapped into a `ValidationError`. -/
def decodeWrap (e : SJError) : SJError :=
  if e = .validation ∨ e = .decryption ∨ e = .tokenExpired ∨ e = .versionMismatch then e
  else .validation

/-- The cache-miss part of `decode`. -/
def decodeCore (h : Handler) (rt : Rt) (token : String) (now : Nat) :
    Handler × Except SJError JVal :=
  match pipelineStrict h rt token now with
  | .ok (_, pl) =>
    let ttl : Nat := (pl.exp * 1000 - (now : Int)).toNat
    ({ h with payloadCache := Cache.set h.payloadCache token pl.data (some ttl) now },
      .ok pl.data)
  | .error e => (h, .error (decodeWrap e))

/-- `SecureJWT.decode`: payload-cache lookup, then the pipeline;
failures raise (wrapped by `decodeWrap`), and only successes are
cached. -/
def decode (h : Handler) (rt : Rt) (token : String) (now : Nat) :
    Handler × Except SJError JVal :=
  let hs := Cache.has h.payloadCache token now
  let h1 := { h with payloadCache := hs.1 }
  if hs.2 then
    let gt := Cache.get h1.payloadCache token now
    let h2 := { h1 with payloadCache := gt.1 }
    match gt.2 with
    | some v => (h2, .ok v)
    | none => decodeCore h2 rt token now
  else decodeCore h1 rt token now

/-- `generateSecret`: dispatch on the key-derivation mode.  The fresh
32-byte salt each derivation draws is the `salt` argument. -/
def generateSecretBuf (rt : Rt) (salt : Bytes) (mode : String) (secret : String) :
    Except SJError Bytes :=
  if mode = "pbkdf2" then .ok (rt.pbkdf2 secret salt 50000 32)
  else if mode = "basic" then .ok (Algorithms.getDerivedKeyBasic salt secret)
  else .error .validation

/-- The `options.version !== undefined` guard of the constructor. -/
def validateVersionOpt : Option String → Check
  | some v => ErrorHandler.validateVersion v
  | none => .ok ()

/-- The `options.cached !== undefined` guard of the constructor. -/
def validateCachedOpt : Option Nat → Check
  | some c => ErrorHandler.validateCacheSize c
  | none => .ok ()

/-- The constructor of `SecureJWT` (the validations of `keyDerivation`
and `algorithm` option strings live in an `ErrorHandler` revision
outside the source tree and only reject malformed option names; the
model takes the options already shaped). -/
def mkHandler (rt : Rt) (salt : Bytes) (secret expireIn : String)
    (versionOpt : Option String) (algoOpt : Option String) (kdOpt : Option String)
    (cachedOpt : Option Nat) : Except SJError Handler := do
  _ ← ErrorHandler.validateSecret secret
  _ ← validateVersionOpt versionOpt
  _ ← validateCachedOpt cachedOpt
  let algo ← Algorithms.getInstance (algoOpt.getD "aes-256-gcm")
  let secretBuf ← generateSecretBuf rt salt (kdOpt.getD "basic") secret
  let expireInMs ← parsetimeToMs expireIn
  pure
    { secretBuf := secretBuf
      expireInMs := expireInMs
      version := versionOpt.getD "1.0.0"
      ivLen := algo.getIVLength
      payloadCache := Cache.init JVal (cachedOpt.getD 1000) expireInMs
      verifyCache := Cache.init Bool (cachedOpt.getD 1000) expireInMs }

end SecureJWT

/-! ### Concrete example data

A small family of closed instances used to exercise the handler: a
stub runtime whose cipher core is a transparent pair, whose RNG is a
constant buffer, and whose `JSON.parse` oracle re-reads the documents
produced in the run (an envelope document starts with `{"encrypted"`,
a payload document with `{"data"`, so the third byte discriminates). -/

/-- Constant IV buffer (16 bytes) drawn by the stub RNG. -/
def iv0 : Bytes := List.replicate 16 7

/-- Constant auth tag (16 bytes) produced by the stub cipher. -/
def tag0 : Bytes := List.replicate 16 9

/-- Constant 32-byte secret buffer. -/
def secret0 : Bytes := List.replicate 32 5

/-- Example sign payload data. -/
def data0 : JVal := .jstr "hi"

/-- Expiry second of the example token: `1000000 + max 1 3600`. -/
def exp0 : Int := 1003600

/-- Issue second of the example token. -/
def iat0 : Int := 1000000

/-- Clock reading of the example run (milliseconds). -/
def now0 : Nat := 1000000999

/-- The inner payload document of the example run. -/
def pl0 : JVal := SecureJWT.payloadJ data0 exp0 iat0 "1.0.0"

/-- Its UTF-8 serialization. -/
def plBytes0 : Bytes := stringifyBytes pl0

/-- The encrypted block of the example run (the stub cipher returns the
plaintext as ciphertext with the constant tag). -/
def te0 : TokenEncryptedS := ⟨hexEncode plBytes0, hexEncode iv0, hexEncode tag0⟩

/-- The envelope document of the example run. -/
def env0 : JVal := SecureJWT.envelopeJ te0 exp0 iat0 "1.0.0"

/-- Its UTF-8 serialization. -/
def envBytes0 : Bytes := stringifyBytes env0

/-- The example token. -/
def tok0 : String := b64Encode envBytes0

/-- The stub runtime of the round-trip example. -/
def rt0 : Rt :=
  { jsonParse := fun bs => if bs.getD 2 0 = 101 then some env0 else some pl0
    encCore := fun d _ _ _ => (d, tag0)
    decCore := fun c _ _ _ _ => some c
    randBytes := fun _ => iv0
    pbkdf2 := fun _ _ _ _ => secret0 }

/-- The example handler: 32-byte secret, `expiresIn` one hour,
version `1.0.0`, AES-256-GCM IV length, fresh caches of size 1000. -/
def h0 : Handler :=
  ⟨secret0, 3600000, "1.0.0", 16, Cache.init JVal 1000 3600000, Cache.init Bool 1000 3600000⟩

/-- Ciphertext bytes of the spliced-token example. -/
def enc7 : Bytes := List.replicate 4 1

/-- A 12-byte IV (24 hex characters). -/
def iv7 : Bytes := List.replicate 12 7

/-- The encrypted block carried by the spliced envelope. -/
def te7 : TokenEncryptedS := ⟨hexEncode enc7, hexEncode iv7, hexEncode tag0⟩

/-- The spliced inner payload: expiry second 1400 (past), issue 1000. -/
def pl7 : JVal := SecureJWT.payloadJ (.jbool true) 1400 1000 "1.0.0"

/-- Its UTF-8 serialization, returned by the stub decryption oracle. -/
def plBytes7 : Bytes := stringifyBytes pl7

/-- The envelope of the spliced token: expiry second 2000 (future). -/
def env7 : JVal := SecureJWT.envelopeJ te7 2000 1000 "1.0.0"

/-- The spliced token. -/
def tok7 : String := b64Encode (stringifyBytes env7)

/-- Clock of the spliced-token run: second 1500, between the payload
expiry (1400) and the envelope expiry (2000). -/
def now7 : Nat := 1500000

/-- Stub runtime of the spliced-token run: decryption yields the
mismatched inner payload. -/
def rt7 : Rt :=
  { jsonParse := fun bs => if bs.getD 2 0 = 101 then some env7 else some pl7
    encCore := fun d _ _ _ => (d, tag0)
    decCore := fun _ _ _ _ _ => some plBytes7
    randBytes := fun _ => iv7
    pbkdf2 := fun _ _ _ _ => secret0 }

/-- The narrowed envelope record of the spliced token. -/
def td7 : TokenDataR := ⟨hexEncode enc7, hexEncode iv7, hexEncode tag0, 2000, 1000, "1.0.0"⟩

/-- The narrowed payload record of the spliced token. -/
def plR7 : PayloadR := ⟨.jbool true, 1400, 1000, "1.0.0"⟩

/-- Inner payload of the stale-cache example: expiry second 1. -/
def plA : JVal := SecureJWT.payloadJ (.jbool true) 1 1 "1.0.0"

/-- Its UTF-8 serialization. -/
def plBytesA : Bytes := stringifyBytes plA

/-- Envelope of the stale-cache example, matching the payload. -/
def envA : JVal := SecureJWT.envelopeJ te7 1 1 "1.0.0"

/-- The stale-cache example token. -/
def tokA : String := b64Encode (stringifyBytes envA)

/-- Stub runtime of the stale-cache example. -/
def rtA : Rt :=
  { jsonParse := fun bs => if bs.getD 2 0 = 101 then some envA else some plA
    encCore := fun d _ _ _ => (d, tag0)
    decCore := fun _ _ _ _ _ => some plBytesA
    randBytes := fun _ => iv7
    pbkdf2 := fun _ _ _ _ => secret0 }

/-- The narrowed envelope record of the stale-cache token. -/
def tdA : TokenDataR := ⟨hexEncode enc7, hexEncode iv7, hexEncode tag0, 1, 1, "1.0.0"⟩

/-- The narrowed payload record of the stale-cache token. -/
def plRA : PayloadR := ⟨.jbool true, 1, 1, "1.0.0"⟩

/-! ## Theorems

Codec correctness lemmas, model lemmas, and the claim theorems. -/

theorem hexCharVal_hexDigitChar {n : Nat} (h : n < 16) :
    hexCharVal (hexDigitChar n) = some n := by
  interval_cases n <;> decide

theorem hexDecode_hexEncode (bs : Bytes) (h : ∀ b ∈ bs, b < 256) :
    hexDecodeChars (hexEncodeChars bs) = bs := by
  induction bs with
  | nil => rfl
  | cons b rest ih =>
    have hb : b < 256 := h b (List.mem_cons_self ..)
    have h1 : b / 16 < 16 := by omega
    have h2 : b % 16 < 16 := by omega
    rw [show hexEncodeChars (b :: rest)
        = hexDigitChar (b / 16) :: hexDigitChar (b % 16) :: hexEncodeChars rest from by
      simp [hexEncodeChars, hexOfByte]]
    simp only [hexDecodeChars, hexCharVal_hexDigitChar h1, hexCharVal_hexDigitChar h2]
    rw [ih (fun x hx => h x (List.mem_cons_of_mem _ hx))]
    congr 1
    omega

theorem hexEncodeChars_length (bs : Bytes) :
    (hexEncodeChars bs).length = 2 * bs.length := by
  induction bs with
  | nil => rfl
  | cons b rest ih =>
    rw [show hexEncodeChars (b :: rest)
        = hexDigitChar (b / 16) :: hexDigitChar (b % 16) :: hexEncodeChars rest from by
      simp [hexEncodeChars, hexOfByte]]
    simp only [List.length_cons, ih, List.length_cons]
    omega

theorem isHexChar_hexDigitChar {n : Nat} (h : n < 16) :
    isHexChar (hexDigitChar n) = true := by
  simp [isHexChar, hexCharVal_hexDigitChar h]

theorem hexEncodeChars_all_hex (bs : Bytes) (hb : ∀ b ∈ bs, b < 256) :
    ∀ c ∈ hexEncodeChars bs, isHexChar c = true := by
  induction bs with
  | nil => simp [hexEncodeChars]
  | cons b rest ih =>
    intro c hc
    have h256 : b < 256 := hb b (by simp)
    simp only [hexEncodeChars, List.flatMap_cons, hexOfByte, List.cons_append,
      List.nil_append, List.mem_cons] at hc
    rcases hc with h1 | h2 | h3
    · exact h1 ▸ isHexChar_hexDigitChar (by omega)
    · exact h2 ▸ isHexChar_hexDigitChar (by omega)
    · exact ih (fun x hx => hb x (by simp [hx])) c h3

theorem b64ValOf_b64CharOf {n : Nat} (h : n < 64) :
    b64ValOf (b64CharOf n) = some n := by
  interval_cases n <;> decide

theorem sextetsToBytes_bytesToSextets (bs : Bytes) (h : ∀ b ∈ bs, b < 256) :
    sextetsToBytes (bytesToSextets bs) = bs := by
  induction bs using bytesToSextets.induct with
  | case1 b0 b1 b2 rest ih =>
    have h0 : b0 < 256 := h b0 (by simp)
    have h1 : b1 < 256 := h b1 (by simp)
    have h2 : b2 < 256 := h b2 (by simp)
    have hrec := ih (fun x hx => h x (by simp [hx]))
    have e0 : b0 / 4 * 4 + ((b0 % 4) * 16 + b1 / 16) / 16 = b0 := by omega
    have e1 : ((b0 % 4) * 16 + b1 / 16) % 16 * 16 + ((b1 % 16) * 4 + b2 / 64) / 4 = b1 := by
      omega
    have e2 : ((b1 % 16) * 4 + b2 / 64) % 4 * 64 + b2 % 64 = b2 := by omega
    simp only [bytesToSextets, sextetsToBytes, hrec, e0, e1, e2]
  | case2 b0 b1 =>
    have h0 : b0 < 256 := h b0 (by simp)
    have h1 : b1 < 256 := h b1 (by simp)
    have e0 : b0 / 4 * 4 + ((b0 % 4) * 16 + b1 / 16) / 16 = b0 := by omega
    have e1 : ((b0 % 4) * 16 + b1 / 16) % 16 * 16 + (b1 % 16) * 4 / 4 = b1 := by omega
    simp only [bytesToSextets, sextetsToBytes, e0, e1]
  | case3 b0 =>
    have h0 : b0 < 256 := h b0 (by simp)
    have e0 : b0 / 4 * 4 + (b0 % 4) * 16 / 16 = b0 := by omega
    simp only [bytesToSextets, sextetsToBytes, e0]
  | case4 => rfl

theorem bytesToSextets_lt (bs : Bytes) (h : ∀ b ∈ bs, b < 256) :
    ∀ s ∈ bytesToSextets bs, s < 64 := by
  induction bs using bytesToSextets.induct with
  | case1 b0 b1 b2 rest ih =>
    have h0 : b0 < 256 := h b0 (by simp)
    have h1 : b1 < 256 := h b1 (by simp)
    have h2 : b2 < 256 := h b2 (by simp)
    have hrec := ih (fun x hx => h x (by simp [hx]))
    intro s hs
    simp only [bytesToSextets, List.mem_cons] at hs
    rcases hs with rfl | rfl | rfl | rfl | hs
    · omega
    · omega
    · omega
    · omega
    · exact hrec s hs
  | case2 b0 b1 =>
    have h0 : b0 < 256 := h b0 (by simp)
    have h1 : b1 < 256 := h b1 (by simp)
    intro s hs
    simp only [bytesToSextets, List.mem_cons] at hs
    rcases hs with rfl | rfl | rfl | hs
    · omega
    · omega
    · omega
    · simp at hs
  | case3 b0 =>
    have h0 : b0 < 256 := h b0 (by simp)
    intro s hs
    simp only [bytesToSextets, List.mem_cons] at hs
    rcases hs with rfl | rfl | hs
    · omega
    · omega
    · simp at hs
  | case4 => simp [bytesToSextets]

theorem b64ValOf_eq_none_pad : b64ValOf '=' = none := by decide

/-- Decoding the encoder's output recovers the bytes. -/
theorem b64DecodeBytes_b64Encode (bs : Bytes) (h : ∀ b ∈ bs, b < 256) :
    b64DecodeBytes (b64Encode bs) = bs := by
  have hlt := bytesToSextets_lt bs h
  have hfm : (b64EncodeChars bs).filterMap b64ValOf = bytesToSextets bs := by
    simp only [b64EncodeChars, List.filterMap_append]
    have h1 : (List.map b64CharOf (bytesToSextets bs)).filterMap b64ValOf
        = bytesToSextets bs := by
      rw [List.filterMap_map]
      have key : ∀ l : List Nat, (∀ s ∈ l, s < 64) →
          List.filterMap (fun x => b64ValOf (b64CharOf x)) l = l := by
        intro l hl
        induction l with
        | nil => rfl
        | cons a t ih =>
          simp only [List.filterMap_cons, b64ValOf_b64CharOf (hl a (by simp))]
          rw [ih (fun x hx => hl x (by simp [hx]))]
      exact key _ hlt
    have h2 : ∀ k : Nat, (List.replicate k '=').filterMap b64ValOf = [] := by
      intro k
      induction k with
      | zero => rfl
      | succ n ih =>
        rw [List.replicate_succ]
        simp only [List.filterMap_cons, b64ValOf_eq_none_pad, ih]
    rw [h1, h2, List.append_nil]
  unfold b64DecodeBytes b64Encode
  show sextetsToBytes ((String.mk (b64EncodeChars bs)).data.filterMap b64ValOf) = bs
  have hdata : (String.mk (b64EncodeChars bs)).data = b64EncodeChars bs := rfl
  rw [hdata, hfm]
  exact sextetsToBytes_bytesToSextets bs h

theorem isB64Alpha_b64CharOf {n : Nat} (h : n < 64) :
    isB64Alpha (b64CharOf n) = true := by
  interval_cases n <;> decide

theorem b64CharOf_ne_pad {n : Nat} (h : n < 64) : b64CharOf n ≠ '=' := by
  interval_cases n <;> decide

theorem bytesToSextets_length (bs : Bytes) :
    (bytesToSextets bs).length + b64PadCount bs.length = 4 * ((bs.length + 2) / 3) := by
  induction bs using bytesToSextets.induct with
  | case1 b0 b1 b2 rest ih =>
    simp only [bytesToSextets, List.length_cons] at *
    have : b64PadCount (rest.length + 1 + 1 + 1) = b64PadCount rest.length := by
      simp [b64PadCount]
      omega
    rw [this]
    omega
  | case2 b0 b1 => simp [bytesToSextets, b64PadCount]
  | case3 b0 => simp [bytesToSextets, b64PadCount]
  | case4 => rfl

theorem b64EncodeChars_length (bs : Bytes) :
    (b64EncodeChars bs).length = 4 * ((bs.length + 2) / 3) := by
  have := bytesToSextets_length bs
  simp only [b64EncodeChars, List.length_append, List.length_map, List.length_replicate]
  omega

theorem b64PadCount_le (n : Nat) : b64PadCount n ≤ 2 := by
  simp [b64PadCount]
  omega

theorem utf8Char_length_pos (c : Char) : 1 ≤ (utf8Char c).length := by
  unfold utf8Char
  split_ifs <;> simp

theorem utf8Bytes_length_ge (l : List Char) : l.length ≤ (utf8Bytes l).length := by
  induction l with
  | nil => simp [utf8Bytes]
  | cons c rest ih =>
    simp only [utf8Bytes, List.flatMap_cons, List.length_append, List.length_cons] at *
    have := utf8Char_length_pos c
    omega


/-- Inversion of a successful `Except` bind. -/
theorem exceptBind_ok {α β : Type} {x : Except SJError α} {f : α → Except SJError β} {b : β}
    (h : x >>= f = .ok b) : ∃ a, x = .ok a ∧ f a = .ok b := by
  cases x with
  | error e => exact absurd h (by simp [Bind.bind, Except.bind])
  | ok a => exact ⟨a, rfl, by simpa [Bind.bind, Except.bind] using h⟩


/-! ### Cache lemmas -/

theorem containsKey_eq_false_iff {T : Type} (l : List (String × CEntry T)) (k : String) :
    containsKey l k = false ↔ ∀ p ∈ l, ¬ p.1 = k := by
  induction l with
  | nil => simp [containsKey, mapFind]
  | cons q rest ih =>
    by_cases hk1 : q.1 = k
    · simp only [containsKey, mapFind]
      rw [List.find?_cons_of_pos _ (by simp [hk1])]
      simp [hk1]
    · simp only [containsKey, mapFind]
      rw [List.find?_cons_of_neg _ (by simp [hk1])]
      simp only [containsKey, mapFind] at ih
      rw [ih]
      constructor
      · intro h p hp
        rcases List.mem_cons.mp hp with rfl | hp2
        · exact hk1
        · exact h p hp2
      · intro h p hp
        exact h p (List.mem_cons_of_mem _ hp)

theorem mapSet_of_not_contains {T : Type} (l : List (String × CEntry T)) (k : String)
    (e : CEntry T) (h : containsKey l k = false) : mapSet l k e = l ++ [(k, e)] := by
  induction l with
  | nil => rfl
  | cons p rest ih =>
    simp only [containsKey, mapFind, List.find?_cons] at h
    rcases p with ⟨k0, e0⟩
    by_cases hk : k0 = k
    · simp [hk] at h
    · simp only [mapSet, hk, if_false, List.cons_append]
      rw [ih]
      simp only [containsKey, mapFind]
      split at h
      · simp at h
      · exact h

theorem mapSet_length_of_contains {T : Type} (l : List (String × CEntry T)) (k : String)
    (e : CEntry T) (h : containsKey l k = true) :
    (mapSet l k e).length = l.length := by
  induction l with
  | nil => simp [containsKey, mapFind] at h
  | cons p rest ih =>
    rcases p with ⟨k0, e0⟩
    by_cases hk : k0 = k
    · simp [mapSet, hk]
    · simp only [mapSet, hk, if_false, List.length_cons]
      rw [ih]
      simp only [containsKey, mapFind, List.find?_cons] at h
      split at h
      · rename_i hfound
        simp only [decide_eq_true_eq] at hfound
        exact absurd hfound hk
      · simpa [containsKey, mapFind] using h

theorem mapDelete_length_of_contains {T : Type} (l : List (String × CEntry T)) (k : String)
    (h : containsKey l k = true) :
    (mapDelete l k).length + 1 = l.length := by
  induction l with
  | nil => simp [containsKey, mapFind] at h
  | cons p rest ih =>
    rcases p with ⟨k0, e0⟩
    by_cases hk : k0 = k
    · simp [mapDelete, hk]
    · simp only [mapDelete, hk, if_false, List.length_cons]
      rw [← ih]
      simp only [containsKey, mapFind, List.find?_cons] at h
      split at h
      · rename_i hfound
        simp only [decide_eq_true_eq] at hfound
        exact absurd hfound hk
      · simpa [containsKey, mapFind] using h

theorem mapDelete_not_contains {T : Type} (l : List (String × CEntry T)) (j k : String)
    (h : containsKey l k = false) : containsKey (mapDelete l j) k = false := by
  induction l with
  | nil => simpa [mapDelete] using h
  | cons p rest ih =>
    rcases p with ⟨k0, e0⟩
    simp only [containsKey, mapFind, List.find?_cons] at h
    by_cases hk : k0 = k
    · simp [hk] at h
    · have hrest : containsKey rest k = false := by
        split at h
        · simp at h
        · simpa [containsKey, mapFind] using h
      by_cases hj : k0 = j
      · simpa [mapDelete, hj] using hrest
      · simp only [mapDelete, hj, if_false]
        simp only [containsKey, mapFind, List.find?_cons, hk]
        have := ih hrest
        simp only [containsKey, mapFind] at this
        simpa [hk] using this

theorem containsKey_of_mem {T : Type} (l : List (String × CEntry T)) (k : String)
    (e : CEntry T) (h : (k, e) ∈ l) : containsKey l k = true := by
  induction l with
  | nil => simp at h
  | cons p rest ih =>
    rcases List.mem_cons.mp h with rfl | hmem
    · simp [containsKey, mapFind, List.find?_cons]
    · rcases p with ⟨k0, e0⟩
      by_cases hk : k0 = k
      · simp [containsKey, mapFind, List.find?_cons, hk]
      · have := ih hmem
        simp only [containsKey, mapFind, List.find?_cons, hk]
        simpa [containsKey, mapFind, hk] using this

theorem foldPick_const {T : Type} (now : Nat) (l : List (String × CEntry T))
    (b : String × Nat) (hall : ∀ p ∈ l, b.2 ≤ Cache.scoreOf now p.2) :
    l.foldl
      (fun best p =>
        if Cache.scoreOf now p.2 < best.2 then (p.1, Cache.scoreOf now p.2) else best) b
      = b := by
  induction l with
  | nil => rfl
  | cons p rest ih =>
    have hp := hall p (by simp)
    simp only [List.foldl_cons, if_neg (by omega : ¬ Cache.scoreOf now p.2 < b.2)]
    exact ih (fun q hq => hall q (by simp [hq]))

theorem foldPick_spec {T : Type} (now : Nat) :
    ∀ (l : List (String × CEntry T)) (b : String × Nat),
      (l.foldl
          (fun best p =>
            if Cache.scoreOf now p.2 < best.2 then (p.1, Cache.scoreOf now p.2) else best) b
          = b
        ∧ ∀ q ∈ l, b.2 ≤ Cache.scoreOf now q.2)
      ∨ (∃ l1 p l2, l = l1 ++ p :: l2
          ∧ l.foldl
              (fun best p =>
                if Cache.scoreOf now p.2 < best.2 then (p.1, Cache.scoreOf now p.2) else best) b
              = (p.1, Cache.scoreOf now p.2)
          ∧ Cache.scoreOf now p.2 < b.2
          ∧ (∀ q ∈ l1, Cache.scoreOf now p.2 < Cache.scoreOf now q.2)
          ∧ (∀ q ∈ l, Cache.scoreOf now p.2 ≤ Cache.scoreOf now q.2)) := by
  intro l
  induction l with
  | nil => intro b; exact Or.inl ⟨rfl, by simp⟩
  | cons p0 rest ih =>
    intro b
    by_cases hlt : Cache.scoreOf now p0.2 < b.2
    · rcases ih (p0.1, Cache.scoreOf now p0.2) with ⟨hfold, hmin⟩ | hR
      · refine Or.inr ⟨[], p0, rest, by simp, ?_, hlt, by simp, ?_⟩
        · simpa [List.foldl_cons, if_pos hlt] using hfold
        · intro q hq
          rcases List.mem_cons.mp hq with rfl | hq2
          · exact Nat.le_refl _
          · exact hmin q hq2
      · obtain ⟨l1, p, l2, heq, hfold, hlt2, hbefore, hmin⟩ := hR
        refine Or.inr ⟨p0 :: l1, p, l2, by simp [heq], ?_, ?_, ?_, ?_⟩
        · simpa [List.foldl_cons, if_pos hlt] using hfold
        · omega
        · intro q hq
          rcases List.mem_cons.mp hq with rfl | hq2
          · omega
          · exact hbefore q hq2
        · intro q hq
          rcases List.mem_cons.mp hq with rfl | hq2
          · omega
          · exact hmin q hq2
    · rcases ih b with ⟨hfold, hmin⟩ | hR
      · refine Or.inl ⟨?_, ?_⟩
        · simpa [List.foldl_cons, if_neg hlt] using hfold
        · intro q hq
          rcases List.mem_cons.mp hq with rfl | hq2
          · omega
          · exact hmin q hq2
      · obtain ⟨l1, p, l2, heq, hfold, hlt2, hbefore, hmin⟩ := hR
        refine Or.inr ⟨p0 :: l1, p, l2, by simp [heq], ?_, hlt2, ?_, ?_⟩
        · simpa [List.foldl_cons, if_neg hlt] using hfold
        · intro q hq
          rcases List.mem_cons.mp hq with rfl | hq2
          · omega
          · exact hbefore q hq2
        · intro q hq
          rcases List.mem_cons.mp hq with rfl | hq2
          · omega
          · exact hmin q hq2

/-! ## Claim theorems -/

/-- Claim C3, counterexample: the claim states that the factory accepts
the three names including `aes-128-gcm`; the `getInstance` of the
source recognises only `aes-256-gcm` and `chacha20-poly1305`, so
`aes-128-gcm` falls to the `else` branch and raises an
`EncryptionError`. -/
theorem C3_counterexample :
    Algorithms.getInstance "aes-128-gcm" = .error .encryption := rfl

/-- Claim C3, amended: `getInstance` accepts exactly the two names
`aes-256-gcm` and `chacha20-poly1305`, returning a cipher strategy for
each; for every name outside this closed set (including `aes-128-gcm`)
it raises an encryption error. -/
theorem C3_amended (algorithm : String) :
    ((Algorithms.getInstance algorithm).isOk = true
      ↔ (algorithm = "aes-256-gcm" ∨ algorithm = "chacha20-poly1305"))
    ∧ ((Algorithms.getInstance algorithm).isOk = false
      ↔ Algorithms.getInstance algorithm = .error .encryption) := by
  by_cases h1 : algorithm = "aes-256-gcm" <;>
    by_cases h2 : algorithm = "chacha20-poly1305" <;>
    simp [Algorithms.getInstance, h1, h2, Except.isOk, Except.toBool]

/-- Claim C8, counterexample: the claim restricts secrets to printable
ASCII; `validateSecret` only rejects character codes below 32 and 127,
so an 8-character secret of `é` (code 233, not ASCII) passes. -/
theorem C8_counterexample :
    ErrorHandler.validateSecret (String.mk (List.replicate 8 (Char.ofNat 233))) = .ok ()
    ∧ ∀ c ∈ (String.mk (List.replicate 8 (Char.ofNat 233))).data, 126 < c.toNat := by
  refine ⟨rfl, ?_⟩
  intro c hc
  rw [show (String.mk (List.replicate 8 (Char.ofNat 233))).data
      = List.replicate 8 (Char.ofNat 233) from rfl] at hc
  rw [List.eq_of_mem_replicate hc]
  decide

/-- `validateSecret` accepts exactly length 8..255 with every character
code at least 32 and different from 127. -/
theorem validateSecret_ok_iff (secret : String) :
    ErrorHandler.validateSecret secret = .ok ()
    ↔ (8 ≤ secret.data.length ∧ secret.data.length ≤ 255 ∧
        ∀ c ∈ secret.data, 32 ≤ c.toNat ∧ c.toNat ≠ 127) := by
  unfold ErrorHandler.validateSecret
  split_ifs with hs hl hb
  · constructor
    · intro h; simp at h
    · intro h; omega
  · constructor
    · intro h; simp at h
    · intro h; omega
  · constructor
    · intro h; simp at h
    · intro h
      rw [List.any_eq_true] at hb
      obtain ⟨c, hc, hcb⟩ := hb
      have := h.2.2 c hc
      simp only [Bool.or_eq_true, decide_eq_true_eq, beq_iff_eq] at hcb
      rcases hcb with hcb | hcb <;> omega
  · constructor
    · intro _
      refine ⟨by omega, by omega, ?_⟩
      intro c hc
      have hno : ¬ ((decide (c.toNat < 32) || c.toNat == 127) = true) := by
        intro hyes
        exact hb (List.any_eq_true.mpr ⟨c, hc, hyes⟩)
      simp only [Bool.or_eq_true, decide_eq_true_eq, beq_iff_eq] at hno
      push_neg at hno
      exact ⟨by omega, hno.2⟩
    · intro _; rfl

/-- Every rejection of `validateSecret` is a `SecretKeyError`. -/
theorem validateSecret_dichotomy (secret : String) :
    ErrorHandler.validateSecret secret = .ok ()
    ∨ ErrorHandler.validateSecret secret = .error .secretKey := by
  unfold ErrorHandler.validateSecret
  split_ifs <;> simp

set_option maxRecDepth 8000 in
/-- Claim C8, amended: a 7-character secret raises `SecretKeyError`, an
8-character one passes, 256 characters raise, 255 pass; the accepted
character set is every code at least 32 and different from 127 (DEL) —
printable ASCII plus all non-ASCII characters, not printable ASCII
only. -/
theorem C8_amended (secret : String) :
    (ErrorHandler.validateSecret secret = .ok ()
      ↔ (8 ≤ secret.data.length ∧ secret.data.length ≤ 255 ∧
          ∀ c ∈ secret.data, 32 ≤ c.toNat ∧ c.toNat ≠ 127))
    ∧ (ErrorHandler.validateSecret secret = .error .secretKey
      ↔ ¬ (8 ≤ secret.data.length ∧ secret.data.length ≤ 255 ∧
          ∀ c ∈ secret.data, 32 ≤ c.toNat ∧ c.toNat ≠ 127))
    ∧ ErrorHandler.validateSecret (String.mk (List.replicate 7 'a')) = .error .secretKey
    ∧ ErrorHandler.validateSecret (String.mk (List.replicate 8 'a')) = .ok ()
    ∧ ErrorHandler.validateSecret (String.mk (List.replicate 255 'a')) = .ok ()
    ∧ ErrorHandler.validateSecret (String.mk (List.replicate 256 'a')) = .error .secretKey := by
  refine ⟨validateSecret_ok_iff secret, ?_, ?_, ?_, ?_, ?_⟩
  · constructor
    · intro he hp
      rw [← validateSecret_ok_iff] at hp
      rw [hp] at he
      simp at he
    · intro hnp
      rcases validateSecret_dichotomy secret with h | h
      · exact absurd ((validateSecret_ok_iff secret).mp h) hnp
      · exact h
  · rfl
  · rfl
  · rfl
  · rfl

/-- Claim C9, confirmed: under basic key derivation the secret buffer
is `salt ++ utf8(secret)` and the key handed to the cipher core by both
`encrypt` and `decrypt` is `secretBuf.take 32`, i.e. exactly the drawn
salt — two handlers built from the same salt but different caller
secrets use the identical cipher key. -/
theorem C9_basic_key_is_salt (rt : Rt) (salt : Bytes) (hsalt : salt.length = 32)
    (s1 s2 expireIn : String) (vOpt aOpt : Option String) (cOpt : Option Nat)
    (h1 h2 : Handler)
    (e1 : SecureJWT.mkHandler rt salt s1 expireIn vOpt aOpt (some "basic") cOpt = .ok h1)
    (e2 : SecureJWT.mkHandler rt salt s2 expireIn vOpt aOpt (some "basic") cOpt = .ok h2) :
    SecureJWT.cipherKey h1 = salt ∧ SecureJWT.cipherKey h2 = salt
    ∧ SecureJWT.cipherKey h1 = SecureJWT.cipherKey h2 := by
  have key : ∀ s h, SecureJWT.mkHandler rt salt s expireIn vOpt aOpt (some "basic") cOpt
      = .ok h → SecureJWT.cipherKey h = salt := by
    intro s h e
    unfold SecureJWT.mkHandler at e
    obtain ⟨u1, hv1, e⟩ := exceptBind_ok e
    obtain ⟨u2, hv2, e⟩ := exceptBind_ok e
    obtain ⟨u3, hv3, e⟩ := exceptBind_ok e
    obtain ⟨algo, halgo, e⟩ := exceptBind_ok e
    obtain ⟨sb, hsb, e⟩ := exceptBind_ok e
    obtain ⟨ms, hms, e⟩ := exceptBind_ok e
    have hsb2 : sb = Algorithms.getDerivedKeyBasic salt s := by
      have hred : SecureJWT.generateSecretBuf rt salt ((some "basic").getD "basic") s
          = .ok (Algorithms.getDerivedKeyBasic salt s) := rfl
      rw [hred] at hsb
      exact ((Except.ok.injEq _ _).mp hsb).symm
    subst hsb2
    simp only [pure, Except.pure, Except.ok.injEq] at e
    subst e
    show (Algorithms.getDerivedKeyBasic salt s).take 32 = salt
    rw [Algorithms.getDerivedKeyBasic, ← hsalt]
    exact List.take_left _ _
  exact ⟨key s1 h1 e1, key s2 h2 e2, by rw [key s1 h1 e1, key s2 h2 e2]⟩

/-- Claim C9, witness: a concrete 32-byte salt and two different
secrets produce handlers whose cipher key is that salt. -/
theorem C9_witness :
    SecureJWT.cipherKey
        { secretBuf := Algorithms.getDerivedKeyBasic (List.replicate 32 5) "password-one"
          expireInMs := 3600000
          version := "1.0.0"
          ivLen := 16
          payloadCache := Cache.init JVal 1000 3600000
          verifyCache := Cache.init Bool 1000 3600000 }
      = List.replicate 32 5 := by
  have h := C9_basic_key_is_salt
    { jsonParse := fun _ => none
      encCore := fun _ _ _ _ => ([], [])
      decCore := fun _ _ _ _ _ => none
      randBytes := fun n => List.replicate n 0
      pbkdf2 := fun _ _ _ _ => List.replicate 32 0 }
    (List.replicate 32 5) (by decide)
    "password-one" "password-two" "1h" none none none
    { secretBuf := Algorithms.getDerivedKeyBasic (List.replicate 32 5) "password-one"
      expireInMs := 3600000
      version := "1.0.0"
      ivLen := 16
      payloadCache := Cache.init JVal 1000 3600000
      verifyCache := Cache.init Bool 1000 3600000 }
    { secretBuf := Algorithms.getDerivedKeyBasic (List.replicate 32 5) "password-two"
      expireInMs := 3600000
      version := "1.0.0"
      ivLen := 16
      payloadCache := Cache.init JVal 1000 3600000
      verifyCache := Cache.init Bool 1000 3600000 }
    (by rfl) (by rfl)
  exact h.1


/-- Claim C4, counterexample: the claim's regex
`^(\\d+(\\.\\d+)?)(ms|s|m|h|d|M|y)$` accepts the fractional `1.5s`
(value 1.5, product 1500 ms, within the cap), but the regex of the
source, `^(\\d+)(ms|s|m|h|d|M|y)$`, has no fractional part, so
`parsetimeToMs "1.5s"` raises a time-format error. -/
theorem C4_counterexample :
    specTimeMsDec "1.5s" = some 1500 ∧ parsetimeToMs "1.5s" = .error .timeFormat := by
  constructor
  · have h1 : strTrim "1.5s" = ['1', '.', '5', 's'] := rfl
    have h2 : List.takeWhile isDigitChar ['1', '.', '5', 's'] = ['1'] := rfl
    have h3 : List.dropWhile isDigitChar ['1', '.', '5', 's'] = ['.', '5', 's'] := rfl
    have h4 : List.takeWhile isDigitChar ['5', 's'] = ['5'] := rfl
    have h5 : List.dropWhile isDigitChar ['5', 's'] = ['s'] := rfl
    have hds : digitsToNat ['1'] = 1 := rfl
    have hfd : digitsToNat ['5'] = 5 := rfl
    have hmu : timeUnitMult (String.mk ['s']) = some 1000 := rfl
    unfold specTimeMsDec
    simp only [h1, h2, h3, h4, h5, hds, hfd, hmu, List.isEmpty_cons,
      Bool.false_eq_true, if_false, List.length_cons, List.length_nil]
    norm_num
  · rfl

set_option maxHeartbeats 2000000 in
/-- Claim C4, amended: `parsetimeToMs` succeeds exactly when the
trimmed input matches the integer regex `^(\\d+)(ms|s|m|h|d|M|y)$`
with a positive value whose product with the unit multiplier does not
exceed 365 days, and then returns that product in milliseconds. -/
theorem C4_amended (s : String) (n : Nat) :
    parsetimeToMs s = .ok n ↔ specTimeMsInt s = some n := by
  unfold parsetimeToMs validateTimeStringOk parseTimeString timeToMs specTimeMsInt
  simp only [Bind.bind, Except.bind]
  by_cases hempty : s.data.length = 0
  · have htrim : strTrim s = [] := by
      have hnil : s.data = [] := List.length_eq_zero.mp hempty
      simp [strTrim, hnil]
    simp [hempty, htrim]
  · simp only [hempty, if_false]
    by_cases hds0 : ((strTrim s).takeWhile isDigitChar).isEmpty
    · simp [hds0]
    · simp only [hds0, Bool.false_eq_true, if_false]
      by_cases hu : timeUnitStrings.contains (String.mk ((strTrim s).dropWhile isDigitChar))
      · have hcases : String.mk ((strTrim s).dropWhile isDigitChar) = "ms"
            ∨ String.mk ((strTrim s).dropWhile isDigitChar) = "s"
            ∨ String.mk ((strTrim s).dropWhile isDigitChar) = "m"
            ∨ String.mk ((strTrim s).dropWhile isDigitChar) = "h"
            ∨ String.mk ((strTrim s).dropWhile isDigitChar) = "d"
            ∨ String.mk ((strTrim s).dropWhile isDigitChar) = "M"
            ∨ String.mk ((strTrim s).dropWhile isDigitChar) = "y" := by
          simpa [timeUnitStrings, List.contains] using hu
        set v := digitsToNat ((strTrim s).takeWhile isDigitChar) with hv
        rcases hcases with h | h | h | h | h | h | h <;>
        · rw [h]
          simp only [show timeUnitStrings.contains ("ms" : String) = true from rfl,
            show timeUnitStrings.contains ("s" : String) = true from rfl,
            show timeUnitStrings.contains ("m" : String) = true from rfl,
            show timeUnitStrings.contains ("h" : String) = true from rfl,
            show timeUnitStrings.contains ("d" : String) = true from rfl,
            show timeUnitStrings.contains ("M" : String) = true from rfl,
            show timeUnitStrings.contains ("y" : String) = true from rfl,
            not_true, Bool.not_true, if_false, ite_false, if_true, ite_true,
            String.reduceEq, reduceIte, timeUnitMult]
          by_cases hz : v = 0
          · simp [hz]
          · rw [if_neg hz, if_neg hz]
            try dsimp only
            try simp only [String.reduceEq, reduceIte, ite_true, ite_false, if_true, if_false]
            try dsimp only
            split_ifs with hc1 hc2 <;>
              constructor <;>
              intro hg <;>
              first
                | (apply absurd hg
                   simp
                   done)
                | (exfalso
                   omega)
                | (injection hg with hgv
                   exact congrArg _ (by omega))
      · have hnone : timeUnitMult (String.mk ((strTrim s).dropWhile isDigitChar)) = none := by
          unfold timeUnitMult
          split_ifs with a1 a2 a3 a4 a5 a6 a7 <;>
            simp_all [timeUnitStrings, List.contains]
        rw [if_pos hu, hnone]
        dsimp only
        simp

/-- Full characterization of `Cache.set`: the overwrite case, the
empty-pick case (no eviction) and the nonempty-pick case (the earliest
minimal-score entry is removed). -/
theorem cacheSet_spec {T : Type} (st : CacheSt T) (k : String) (v : T) (ttl : Option Nat)
    (now : Nat) :
    (containsKey st.entries k = true →
      (Cache.set st k v ttl now).entries
          = mapSet st.entries k ⟨v, now + max 1 (ttl.getD st.defaultTTL), now, 1⟩
        ∧ (Cache.set st k v ttl now).entries.length = st.entries.length)
    ∧ (st.maxSize ≤ st.entries.length → containsKey st.entries k = false →
      ((Cache.evictPick now st.entries).1 = "" →
        (Cache.set st k v ttl now).entries
          = st.entries ++ [(k, ⟨v, now + max 1 (ttl.getD st.defaultTTL), now, 1⟩)])
      ∧ ((Cache.evictPick now st.entries).1 ≠ "" →
        (Cache.set st k v ttl now).entries
            = mapSet (mapDelete st.entries (Cache.evictPick now st.entries).1) k
                ⟨v, now + max 1 (ttl.getD st.defaultTTL), now, 1⟩
          ∧ (∃ l1 e l2, st.entries = l1 ++ ((Cache.evictPick now st.entries).1, e) :: l2
              ∧ Cache.scoreOf now e = (Cache.evictPick now st.entries).2
              ∧ (∀ q ∈ st.entries, (Cache.evictPick now st.entries).2 ≤ Cache.scoreOf now q.2)
              ∧ (∀ q ∈ l1, (Cache.evictPick now st.entries).2 < Cache.scoreOf now q.2))
          ∧ (Cache.set st k v ttl now).entries.length = st.entries.length)) := by
  constructor
  · intro hmem
    have hcond : ¬ (st.entries.length ≥ st.maxSize ∧ containsKey st.entries k = false) := by
      intro hc
      rw [hmem] at hc
      simp at hc
    constructor
    · simp [Cache.set, hcond]
    · simp only [Cache.set, hcond, if_false]
      exact mapSet_length_of_contains _ _ _ hmem
  · intro hcap hnew
    have hcond : st.entries.length ≥ st.maxSize ∧ containsKey st.entries k = false :=
      ⟨hcap, hnew⟩
    constructor
    · intro hpick
      simp only [Cache.set, hcond, if_true, Cache.evictLRU, hpick, ne_eq,
        not_true_eq_false, if_false, ite_false]
      have hfresh := mapSet_of_not_contains st.entries k
        ⟨v, now + max 1 (ttl.getD st.defaultTTL), now, 1⟩ hnew
      simpa [hpick] using hfresh
    · intro hpick
      rcases foldPick_spec now st.entries ("", Cache.msiScaled) with ⟨hfold, _⟩ | hR
      · exact absurd (by simpa [Cache.evictPick] using congrArg Prod.fst hfold) hpick
      · obtain ⟨l1, p, l2, heq, hfold, hlt2, hbefore, hmin⟩ := hR
        have hpickeq : Cache.evictPick now st.entries = (p.1, Cache.scoreOf now p.2) := by
          simpa [Cache.evictPick] using hfold
        have hpmem : p ∈ st.entries := by
          rw [heq]; exact List.mem_append_right _ (List.mem_cons_self ..)
        have hpcont : containsKey st.entries p.1 = true :=
          containsKey_of_mem _ p.1 p.2 (by simpa using hpmem)
        have hent : (Cache.set st k v ttl now).entries
            = mapSet (mapDelete st.entries (Cache.evictPick now st.entries).1) k
              ⟨v, now + max 1 (ttl.getD st.defaultTTL), now, 1⟩ := by
          simp [Cache.set, hcond, Cache.evictLRU, hpick]
        refine ⟨hent, ?_, ?_⟩
        · refine ⟨l1, p.2, l2, ?_, ?_, ?_, ?_⟩
          · rw [hpickeq]; simpa using heq
          · rw [hpickeq]
          · intro q hq; rw [hpickeq]; exact hmin q hq
          · intro q hq; rw [hpickeq]; exact hbefore q hq
        · have hdel : (mapDelete st.entries (Cache.evictPick now st.entries).1).length + 1
              = st.entries.length := by
            apply mapDelete_length_of_contains
            rw [hpickeq]
            exact hpcont
          have hnew2 : containsKey (mapDelete st.entries (Cache.evictPick now st.entries).1) k
              = false := mapDelete_not_contains _ _ _ hnew
          have hset := mapSet_of_not_contains
            (mapDelete st.entries (Cache.evictPick now st.entries).1) k
            ⟨v, now + max 1 (ttl.getD st.defaultTTL), now, 1⟩ hnew2
          rw [hent, hset]
          simp only [List.length_append, List.length_cons, List.length_nil]
          omega

/-- Claim C6, amended: when `set` hits a cache at capacity with a new
key, the scan picks the entry with the lowest score
`accessCount + (now - createdAt)/1000`, ties resolved to the earliest
entry in insertion order (and only scores below
`Number.MAX_SAFE_INTEGER` are ever adopted); if the picked key is
non-empty, exactly that entry is removed before the insert and the
size is preserved — but if the picked key is the empty string (a
falsy value), nothing is evicted and the insert grows the cache past
capacity.  Overwriting an existing key never evicts. -/
theorem C6_amended {T : Type} (st : CacheSt T) (k : String) (v : T) (ttl : Option Nat)
    (now : Nat) :
    (containsKey st.entries k = true →
      (Cache.set st k v ttl now).entries
          = mapSet st.entries k ⟨v, now + max 1 (ttl.getD st.defaultTTL), now, 1⟩
        ∧ (Cache.set st k v ttl now).entries.length = st.entries.length)
    ∧ (st.maxSize ≤ st.entries.length → containsKey st.entries k = false →
      ((Cache.evictPick now st.entries).1 = "" →
        (Cache.set st k v ttl now).entries
          = st.entries ++ [(k, ⟨v, now + max 1 (ttl.getD st.defaultTTL), now, 1⟩)])
      ∧ ((Cache.evictPick now st.entries).1 ≠ "" →
        (Cache.set st k v ttl now).entries
            = mapSet (mapDelete st.entries (Cache.evictPick now st.entries).1) k
                ⟨v, now + max 1 (ttl.getD st.defaultTTL), now, 1⟩
          ∧ (∃ l1 e l2, st.entries = l1 ++ ((Cache.evictPick now st.entries).1, e) :: l2
              ∧ Cache.scoreOf now e = (Cache.evictPick now st.entries).2
              ∧ (∀ q ∈ st.entries, (Cache.evictPick now st.entries).2 ≤ Cache.scoreOf now q.2)
              ∧ (∀ q ∈ l1, (Cache.evictPick now st.entries).2 < Cache.scoreOf now q.2))
          ∧ (Cache.set st k v ttl now).entries.length = st.entries.length)) :=
  cacheSet_spec st k v ttl now

/-- Claim C6, witness for the amended theorem: a concrete two-entry
cache at capacity two; the entry `y`, created recently and never
reaccessed, has the lower score `accessCount + age/1000` and is the
one evicted. -/
theorem C6_witness :
    (Cache.set (⟨[("x", ⟨true, 50, 0, 1⟩), ("y", ⟨true, 50, 4000, 1⟩)], 2, 5⟩ : CacheSt Bool)
        "z" true none 6000).entries
      = [("x", ⟨true, 50, 0, 1⟩), ("z", ⟨true, 6005, 6000, 1⟩)] := by
  have h := (C6_amended (⟨[("x", ⟨true, 50, 0, 1⟩), ("y", ⟨true, 50, 4000, 1⟩)], 2, 5⟩ :
      CacheSt Bool) "z" true none 6000).2 (by decide) (by decide)
  have h2 := h.2 (by decide)
  rw [h2.1]
  rfl

/-- The 1000-entry tied-score cache with an empty-string first key:
its size. -/
theorem c6State_len : c6State.entries.length = 1000 := by
  simp [c6State, cexKeys]

/-- The key `b` is not among the c6State keys. -/
theorem c6State_fresh_b : containsKey c6State.entries "b" = false := by
  have hfindb : c6State.entries.find? (fun p => p.1 = "b") = none := by
    rw [List.find?_eq_none]
    intro x hx
    simp only [c6State, cexKeys, List.map_cons, List.mem_cons, List.mem_map] at hx
    rcases hx with rfl | ⟨k, ⟨i, _, rfl⟩, rfl⟩
    · simp
    · simp only [decide_eq_true_eq]
      intro hcontra
      have hd := congrArg String.data hcontra
      simp only [aKey] at hd
      have hlen2 : i + 1 = 1 := by simpa using congrArg List.length hd
      rw [show i = 0 from by omega] at hd
      simp at hd
  simp [containsKey, mapFind, hfindb]

/-- At time 0 the eviction scan over `c6State` picks the empty-string
key (every entry ties at score 1000, and the first wins). -/
theorem c6State_pick : Cache.evictPick 0 c6State.entries = ("", 1000) := by
  simp only [Cache.evictPick, c6State, cexKeys, List.map_cons, List.foldl_cons]
  rw [if_pos (by simp [Cache.scoreOf, c6Entry, Cache.msiScaled])]
  have hconst := foldPick_const 0 ((List.range 999).map (fun i => (aKey i, c6Entry)))
    ("", Cache.scoreOf 0 c6Entry)
    (by
      intro p hp
      simp only [List.mem_map] at hp
      obtain ⟨i, _, rfl⟩ := hp
      simp)
  simpa [Cache.scoreOf, c6Entry] using hconst

/-- Setting the fresh key `b` on the full `c6State` skips eviction (the
picked key is falsy) and overfills the cache to 1001 entries. -/
theorem c6State_overfill :
    (Cache.set c6State "b" true none 0).entries.length = 1001 := by
  have h := (cacheSet_spec c6State "b" true none 0).2
    (by rw [c6State_len]; simp [c6State]) c6State_fresh_b
  have h2 := h.1 (by rw [c6State_pick])
  rw [h2]
  simp [c6State_len]

/-- Claim C6, counterexample: the claim says exactly one entry (the
lowest-score, earliest) is evicted.  In a cache at capacity 1000 whose
earliest entry has the empty-string key and whose entries all tie on
score, the scan picks the empty-string key, the truthiness guard
`if (lruKey)` skips the deletion, and `set` grows the cache to 1001
entries — no entry is evicted. -/
theorem C6_counterexample :
    c6State.entries.length = 1000 ∧ c6State.maxSize = 1000
    ∧ containsKey c6State.entries "b" = false
    ∧ (Cache.set c6State "b" true none 0).entries.length = 1001 :=
  ⟨c6State_len, rfl, c6State_fresh_b, c6State_overfill⟩

/-- Inserting fresh distinct keys into a cache below capacity just
appends the new entries. -/
theorem run_fresh_sets (keys : List String) :
    ∀ st : CacheSt Bool,
      (∀ k ∈ keys, containsKey st.entries k = false) → keys.Nodup →
      st.entries.length + keys.length ≤ st.maxSize →
      runCacheOps st (keys.map (fun k => CacheOp.set k true none 0))
        = { st with entries := st.entries
            ++ keys.map (fun k => (k, ⟨true, max 1 st.defaultTTL, 0, 1⟩)) } := by
  induction keys with
  | nil =>
    intro st _ _ _
    simp only [List.map_nil, runCacheOps, List.foldl_nil, List.append_nil]
  | cons k0 rest ih =>
    intro st hfresh hnodup hcap
    have h0 : containsKey st.entries k0 = false := hfresh k0 (by simp)
    have hnoev : ¬ (st.entries.length ≥ st.maxSize ∧ containsKey st.entries k0 = false) := by
      intro hc
      simp only [List.length_cons] at hcap
      omega
    have hset : Cache.set st k0 true none 0
        = { st with entries := st.entries ++ [(k0, ⟨true, max 1 st.defaultTTL, 0, 1⟩)] } := by
      simp only [Cache.set, hnoev, if_false, Option.getD_none]
      rw [mapSet_of_not_contains _ _ _ h0]
      simp
    simp only [List.map_cons, runCacheOps, List.foldl_cons]
    have happly : applyCacheOp st (CacheOp.set k0 true none 0)
        = { st with entries := st.entries ++ [(k0, ⟨true, max 1 st.defaultTTL, 0, 1⟩)] } := by
      simpa [applyCacheOp] using hset
    rw [happly]
    have hfresh2 : ∀ k ∈ rest,
        containsKey (st.entries ++ [(k0, ⟨true, max 1 st.defaultTTL, 0, 1⟩)]) k = false := by
      intro k hk
      have hk0 : k0 ≠ k := by
        intro hkk
        rw [hkk] at hnodup
        exact (List.nodup_cons.mp hnodup).1 hk
      have hkf : containsKey st.entries k = false := hfresh k (by simp [hk])
      rw [containsKey_eq_false_iff] at hkf ⊢
      intro p hp
      rcases List.mem_append.mp hp with hp1 | hp2
      · exact hkf p hp1
      · rcases List.mem_singleton.mp hp2 with rfl
        exact hk0
    have ihres := ih { st with entries := st.entries
        ++ [(k0, ⟨true, max 1 st.defaultTTL, 0, 1⟩)] } hfresh2
      (List.nodup_cons.mp hnodup).2
      (by simp only [List.length_append, List.length_cons, List.length_nil] at hcap ⊢; omega)
    simp only [runCacheOps] at ihres
    rw [ihres]
    simp

/-- Claim C5: the failing run.  From a fresh capacity-1000 cache,
inserting the empty-string key, then 999 distinct keys (all in the
same millisecond), then one more distinct key: the eviction scan picks
the empty-string key, the truthy guard skips the delete, and the cache
ends with 1001 entries — above `maxSize`. -/
theorem C5_capacity_violation :
    (Cache.init Bool 1000 1).maxSize = 1000
    ∧ (runCacheOps (Cache.init Bool 1000 1) c5Ops).entries.length = 1001 := by
  refine ⟨rfl, ?_⟩
  have hnodup : cexKeys.Nodup := by
    simp only [cexKeys, List.nodup_cons]
    constructor
    · intro hmem
      simp only [List.mem_map] at hmem
      obtain ⟨i, _, hcontra⟩ := hmem
      have hd := congrArg String.data hcontra
      simp [aKey] at hd
    · refine List.Nodup.map ?_ (List.nodup_range ..)
      intro i j hij
      have hd := congrArg String.data hij
      simp only [aKey] at hd
      have := congrArg List.length hd
      simpa using this
  have hfresh : ∀ k ∈ cexKeys, containsKey (Cache.init Bool 1000 1).entries k = false := by
    intro k _
    simp [Cache.init, containsKey, mapFind]
  have hrun := run_fresh_sets cexKeys (Cache.init Bool 1000 1) hfresh hnodup
    (by simp [Cache.init, cexKeys])
  have hsplit : runCacheOps (Cache.init Bool 1000 1) c5Ops
      = applyCacheOp (runCacheOps (Cache.init Bool 1000 1)
          (cexKeys.map (fun k => CacheOp.set k true none 0)))
        (CacheOp.set "b" true none 0) := by
    simp [c5Ops, runCacheOps, List.foldl_append]
  have hmid : runCacheOps (Cache.init Bool 1000 1)
      (cexKeys.map (fun k => CacheOp.set k true none 0)) = c6State := by
    rw [hrun]
    simp [Cache.init, c6State, c6Entry]
  rw [hsplit, hmid]
  simpa [applyCacheOp] using c6State_overfill

/-! ### Pipeline helper lemmas -/

/-- `takeWhile` of the pad predicate over a pad block followed by
non-pad characters. -/
theorem takeWhile_replicate_pad (k : Nat) (r : List Char)
    (hr : ∀ c ∈ r, ¬ (c = '=')) :
    (List.replicate k '=' ++ r).takeWhile (fun c => c = '=') = List.replicate k '=' := by
  induction k with
  | zero =>
    simp only [List.replicate, List.nil_append]
    cases r with
    | nil => rfl
    | cons c t =>
      have hc := hr c (List.mem_cons_self ..)
      simp [List.takeWhile_cons, hc]
  | succ n ih =>
    simp only [List.replicate_succ, List.cons_append]
    simp [List.takeWhile_cons, ih]

/-- The encoder's output matches the base64 shape regex. -/
theorem matchesB64Regex_b64EncodeChars (bs : Bytes) (h : ∀ b ∈ bs, b < 256) :
    ErrorHandler.matchesB64Regex (b64EncodeChars bs) = true := by
  have hr : ∀ c ∈ ((bytesToSextets bs).map b64CharOf).reverse, ¬ (c = '=') := by
    intro c hc
    rw [List.mem_reverse] at hc
    obtain ⟨v, hv, rfl⟩ := List.mem_map.mp hc
    exact b64CharOf_ne_pad (bytesToSextets_lt bs h v hv)
  have hrev : (b64EncodeChars bs).reverse
      = List.replicate (b64PadCount bs.length) '='
        ++ ((bytesToSextets bs).map b64CharOf).reverse := by
    simp [b64EncodeChars, List.reverse_append]
  have htw := takeWhile_replicate_pad (b64PadCount bs.length)
    (((bytesToSextets bs).map b64CharOf).reverse) hr
  simp only [ErrorHandler.matchesB64Regex, hrev, htw, List.length_replicate,
    Bool.and_eq_true, decide_eq_true_eq]
  refine ⟨b64PadCount_le _, ?_⟩
  rw [List.drop_left' (by simp), List.all_eq_true]
  intro c hc
  rw [List.mem_reverse] at hc
  obtain ⟨v, hv, rfl⟩ := List.mem_map.mp hc
  exact isB64Alpha_b64CharOf (bytesToSextets_lt bs h v hv)

/-- The encoder's output passes `validateTokenIntegrity` whenever its
length lands in the accepted 10..100000 window. -/
theorem validateTokenIntegrity_b64Encode (bs : Bytes) (h : ∀ b ∈ bs, b < 256)
    (hlo : 10 ≤ (b64EncodeChars bs).length) (hhi : (b64EncodeChars bs).length ≤ 100000) :
    ErrorHandler.validateTokenIntegrity (b64Encode bs) = .ok () := by
  have hdata : (b64Encode bs).data = b64EncodeChars bs := rfl
  have hm := matchesB64Regex_b64EncodeChars bs h
  have hfilter : ((b64EncodeChars bs).filter (fun c => c = '=')).length ≤ 2 := by
    have h1 : ((bytesToSextets bs).map b64CharOf).filter (fun c => c = '=') = [] := by
      rw [List.filter_eq_nil_iff]
      intro c hc
      obtain ⟨v, hv, rfl⟩ := List.mem_map.mp hc
      simpa using b64CharOf_ne_pad (bytesToSextets_lt bs h v hv)
    have h2 : ((List.replicate (b64PadCount bs.length) '=').filter
        (fun c => c = '=')).length ≤ 2 := by
      calc ((List.replicate (b64PadCount bs.length) '=').filter (fun c => c = '=')).length
          ≤ (List.replicate (b64PadCount bs.length) '=').length :=
            List.length_filter_le _ _
        _ ≤ 2 := by simpa using b64PadCount_le bs.length
    simp only [b64EncodeChars, List.filter_append, h1, List.nil_append]
    exact h2
  have hmod : (b64EncodeChars bs).length % 4 = 0 := by
    rw [b64EncodeChars_length]
    omega
  unfold ErrorHandler.validateTokenIntegrity
  rw [hdata]
  rw [if_neg (by simp [hm]), if_neg (by omega), if_neg (by omega),
    if_neg (by omega), if_neg (by simp [hmod])]

/-- The character list behind `hexEncode`. -/
theorem hexEncode_data (bs : Bytes) : (hexEncode bs).data = hexEncodeChars bs := rfl

/-- A hex-encoded 12- or 16-byte buffer passes `validateIVFormat`. -/
theorem validateIVFormat_hexEncode (iv : Bytes) (hlen : iv.length = 12 ∨ iv.length = 16)
    (hb : ∀ b ∈ iv, b < 256) :
    ErrorHandler.validateIVFormat (hexEncode iv) = .ok () := by
  unfold ErrorHandler.validateIVFormat
  rw [if_pos]
  refine ⟨?_, ?_, ?_⟩
  · rw [hexEncode_data, hexEncodeChars_length]
    rcases hlen with hl | hl <;> omega
  · rw [hexEncode_data, hexEncodeChars_length]
    rcases hlen with hl | hl <;> omega
  · rw [hexEncode_data, List.all_eq_true]
    exact hexEncodeChars_all_hex iv hb

/-- A hex-encoded 16-byte buffer passes `validateTagFormat`. -/
theorem validateTagFormat_hexEncode (tag : Bytes) (hlen : tag.length = 16)
    (hb : ∀ b ∈ tag, b < 256) :
    ErrorHandler.validateTagFormat (hexEncode tag) = .ok () := by
  unfold ErrorHandler.validateTagFormat
  rw [if_pos]
  refine ⟨?_, ?_⟩
  · rw [hexEncode_data, hexEncodeChars_length, hlen]
  · rw [hexEncode_data, List.all_eq_true]
    exact hexEncodeChars_all_hex tag hb

/-- Hex encoding a non-empty buffer yields a non-empty string. -/
theorem hexEncode_data_length_ne (bs : Bytes) (h : bs ≠ []) :
    (hexEncode bs).data.length ≠ 0 := by
  rw [hexEncode_data, hexEncodeChars_length]
  cases bs with
  | nil => exact absurd rfl h
  | cons b t => simp

/-- `decrypt` on a well-formed hex block whose cipher core answers. -/
theorem decrypt_hex_ok (h : Handler) (rt : Rt) (ct iv tag pt : Bytes)
    (hkey : (SecureJWT.cipherKey h).length = 32)
    (hivlen : iv.length = 12 ∨ iv.length = 16) (hivb : ∀ b ∈ iv, b < 256)
    (htaglen : tag.length = 16) (htagb : ∀ b ∈ tag, b < 256)
    (hctb : ∀ b ∈ ct, b < 256)
    (hdec : rt.decCore ct (SecureJWT.cipherKey h) iv tag (aadOf h.version) = some pt) :
    SecureJWT.decrypt h rt ⟨hexEncode ct, hexEncode iv, hexEncode tag⟩ = .ok pt := by
  have h1 : ErrorHandler.validateKeyLength (SecureJWT.cipherKey h) = .ok () := by
    unfold ErrorHandler.validateKeyLength
    rw [if_pos hkey]
  have h2 := validateIVFormat_hexEncode iv hivlen hivb
  have h3 := validateTagFormat_hexEncode tag htaglen htagb
  have hhd : ∀ bs : Bytes, (∀ b ∈ bs, b < 256) → hexDecode (hexEncode bs) = bs := by
    intro bs hb
    unfold hexDecode
    rw [hexEncode_data]
    exact hexDecode_hexEncode bs hb
  have h4 : SecureJWT.strategyDecrypt rt ⟨hexEncode ct, hexEncode iv, hexEncode tag⟩
      (SecureJWT.cipherKey h) h.version = some pt := by
    unfold SecureJWT.strategyDecrypt
    rw [show (⟨hexEncode ct, hexEncode iv, hexEncode tag⟩ : TokenEncryptedS).encrypted
      = hexEncode ct from rfl]
    rw [show (⟨hexEncode ct, hexEncode iv, hexEncode tag⟩ : TokenEncryptedS).iv
      = hexEncode iv from rfl]
    rw [show (⟨hexEncode ct, hexEncode iv, hexEncode tag⟩ : TokenEncryptedS).tag
      = hexEncode tag from rfl]
    rw [hhd ct hctb, hhd iv hivb, hhd tag htagb]
    exact hdec
  unfold SecureJWT.decrypt
  simp only [h1, h2, h3, h4, Bind.bind, Except.bind]

/-- `decrypt` reads the handler only through its secret and version. -/
theorem decrypt_cache_congr (h1 h2 : Handler) (rt : Rt) (te : TokenEncryptedS)
    (hs : h1.secretBuf = h2.secretBuf) (hv : h1.version = h2.version) :
    SecureJWT.decrypt h1 rt te = SecureJWT.decrypt h2 rt te := by
  unfold SecureJWT.decrypt SecureJWT.strategyDecrypt SecureJWT.cipherKey aadOf
  rw [hs, hv]

/-- The validation pipeline reads the handler only through its secret
and version: cache contents never change its verdict. -/
theorem pipelineStrict_cache_congr (h1 h2 : Handler) (rt : Rt) (token : String) (now : Nat)
    (hs : h1.secretBuf = h2.secretBuf) (hv : h1.version = h2.version) :
    SecureJWT.pipelineStrict h1 rt token now = SecureJWT.pipelineStrict h2 rt token now := by
  unfold SecureJWT.pipelineStrict
  have hd : ∀ te, SecureJWT.decrypt h1 rt te = SecureJWT.decrypt h2 rt te :=
    fun te => decrypt_cache_congr h1 h2 rt te hs hv
  simp only [hd, hv]

/-- A run of the validation pipeline whose first eight steps succeed
reduces to its three payload-versus-envelope checks. -/
theorem pipeline_tail_eq (h : Handler) (rt : Rt) (token : String) (now : Nat)
    (envJ plJ : JVal) (td : TokenDataR) (pt : Bytes) (pl : PayloadR)
    (s1 : ErrorHandler.validateToken token = .ok ())
    (s2 : ErrorHandler.validateTokenIntegrity token = .ok ())
    (s3 : rt.jsonParse (b64DecodeBytes token) = some envJ)
    (s4 : ErrorHandler.validateTokenDataIntegrity envJ now = .ok ())
    (s5 : isValidTokenData envJ = some td)
    (s6 : ErrorHandler.validateVersionCompatibility td.version h.version = .ok ())
    (s7 : ErrorHandler.checkTokenExpiration td.exp now = .ok ())
    (s8 : SecureJWT.decrypt h rt ⟨td.encrypted, td.iv, td.tag⟩ = .ok pt)
    (s9 : rt.jsonParse pt = some plJ)
    (s10 : isValidPayloadData plJ = some pl) :
    SecureJWT.pipelineStrict h rt token now
      = (ErrorHandler.validateVersionCompatibility pl.version td.version >>= fun _ =>
          ErrorHandler.checkTokenExpiration pl.exp now >>= fun _ =>
          ErrorHandler.validateTokenTimestamps pl.exp td.exp pl.iat td.iat >>= fun _ =>
          pure (td, pl)) := by
  unfold SecureJWT.pipelineStrict
  simp only [s1, s2, s3, s4, s5, s6, s7, s8, s9, s10, Bind.bind, Except.bind]

/-- The type guard accepts the literal envelope object and narrows it
to the expected record. -/
theorem isValidTokenData_envelopeJ (te : TokenEncryptedS) (exp iat : Int) (ver : String) :
    isValidTokenData (SecureJWT.envelopeJ te exp iat ver)
      = some ⟨te.encrypted, te.iv, te.tag, exp, iat, ver⟩ := rfl

/-- The type guard accepts the literal payload object. -/
theorem isValidPayloadData_payloadJ (d : JVal) (exp iat : Int) (ver : String) :
    isValidPayloadData (SecureJWT.payloadJ d exp iat ver) = some ⟨d, exp, iat, ver⟩ := rfl

/-- The envelope object built by `sign` passes
`validateTokenDataIntegrity` under the stated field conditions. -/
theorem validateTokenDataIntegrity_envelopeJ (te : TokenEncryptedS) (exp iat : Int)
    (ver : String) (now : Nat)
    (h1 : te.encrypted.data.length ≠ 0) (h2 : te.iv.data.length ≠ 0)
    (h3 : te.tag.data.length ≠ 0) (h4 : 0 < exp) (h5 : 0 < iat)
    (h6 : ver.data.length ≠ 0) (h7 : iat ≤ exp)
    (h8 : ((now / 1000 : Nat) : Int) - 31536000 ≤ iat)
    (h9 : exp ≤ ((now / 1000 : Nat) : Int) + 31536000) :
    ErrorHandler.validateTokenDataIntegrity (SecureJWT.envelopeJ te exp iat ver) now
      = .ok () := by
  have e1 : ErrorHandler.jGet [("encrypted", JVal.jstr te.encrypted), ("iv", JVal.jstr te.iv),
      ("tag", JVal.jstr te.tag), ("exp", JVal.jnum exp), ("iat", JVal.jnum iat),
      ("version", JVal.jstr ver)] "encrypted" = some (JVal.jstr te.encrypted) := rfl
  have e2 : ErrorHandler.jGet [("encrypted", JVal.jstr te.encrypted), ("iv", JVal.jstr te.iv),
      ("tag", JVal.jstr te.tag), ("exp", JVal.jnum exp), ("iat", JVal.jnum iat),
      ("version", JVal.jstr ver)] "iv" = some (JVal.jstr te.iv) := rfl
  have e3 : ErrorHandler.jGet [("encrypted", JVal.jstr te.encrypted), ("iv", JVal.jstr te.iv),
      ("tag", JVal.jstr te.tag), ("exp", JVal.jnum exp), ("iat", JVal.jnum iat),
      ("version", JVal.jstr ver)] "tag" = some (JVal.jstr te.tag) := rfl
  have e4 : ErrorHandler.jGet [("encrypted", JVal.jstr te.encrypted), ("iv", JVal.jstr te.iv),
      ("tag", JVal.jstr te.tag), ("exp", JVal.jnum exp), ("iat", JVal.jnum iat),
      ("version", JVal.jstr ver)] "exp" = some (JVal.jnum exp) := rfl
  have e5 : ErrorHandler.jGet [("encrypted", JVal.jstr te.encrypted), ("iv", JVal.jstr te.iv),
      ("tag", JVal.jstr te.tag), ("exp", JVal.jnum exp), ("iat", JVal.jnum iat),
      ("version", JVal.jstr ver)] "iat" = some (JVal.jnum iat) := rfl
  have e6 : ErrorHandler.jGet [("encrypted", JVal.jstr te.encrypted), ("iv", JVal.jstr te.iv),
      ("tag", JVal.jstr te.tag), ("exp", JVal.jnum exp), ("iat", JVal.jnum iat),
      ("version", JVal.jstr ver)] "version" = some (JVal.jstr ver) := rfl
  show ErrorHandler.validateTokenDataIntegrity
    (.jobj [("encrypted", JVal.jstr te.encrypted), ("iv", JVal.jstr te.iv),
      ("tag", JVal.jstr te.tag), ("exp", JVal.jnum exp), ("iat", JVal.jnum iat),
      ("version", JVal.jstr ver)]) now = .ok ()
  simp only [ErrorHandler.validateTokenDataIntegrity]
  rw [e1, e2, e3, e4, e5, e6]
  rw [if_neg (by simp)]
  dsimp only
  rw [if_neg h1, if_neg h2, if_neg h3, if_neg (by omega), if_neg (by omega), if_neg h6,
    if_neg (by omega), if_neg (by omega), if_neg (by omega)]

/-- `Map.set` makes the key retrievable with exactly the new entry. -/
theorem mapFind_mapSet_self {T : Type} (l : List (String × CEntry T)) (k : String)
    (e : CEntry T) : mapFind (mapSet l k e) k = some e := by
  induction l with
  | nil => simp [mapSet, mapFind, List.find?]
  | cons p rest ih =>
    by_cases hk : p.1 = k
    · rcases p with ⟨k0, e0⟩
      simp only at hk
      simp only [mapSet, if_pos hk, mapFind]
      rw [List.find?_cons_of_pos _ (by simp)]
      rfl
    · rcases p with ⟨k0, e0⟩
      simp only at hk
      simp only [mapSet, if_neg hk, mapFind]
      rw [List.find?_cons_of_neg _ (by simp [hk])]
      simpa [mapFind] using ih

/-- A positive `has` means the key is present with an entry that has
not lazily expired. -/
theorem cacheHas_true_inv {T : Type} (st : CacheSt T) (k : String) (now : Nat)
    (h : (Cache.has st k now).2 = true) :
    ∃ e, mapFind st.entries k = some e ∧ now ≤ e.expiresAt := by
  unfold Cache.has at h
  rcases hf : mapFind st.entries k with _ | e
  · rw [hf] at h
    simp at h
  · rw [hf] at h
    dsimp only at h
    by_cases hx : now > e.expiresAt
    · rw [if_pos hx] at h
      simp at h
    · exact ⟨e, rfl, by omega⟩

/-- `has` on an empty cache misses and leaves the state alone. -/
theorem cacheHas_nil {T : Type} (st : CacheSt T) (k : String) (now : Nat)
    (h : st.entries = []) : Cache.has st k now = (st, false) := by
  unfold Cache.has
  rw [show mapFind st.entries k = none from by rw [h]; rfl]

/-- A successful run of `sign`, given the oracle facts it consumes:
valid data, an `expiresIn` within a year, a payload within 8KB, a
32-byte key slice and a non-empty auth tag. -/
theorem sign_ok (h : Handler) (rt : Rt) (data : JVal) (now : Nat)
    (exp : Int) (pbytes iv ct tag : Bytes)
    (hexpdef : exp = ((now / 1000 : Nat) : Int) + max 1 (((h.expireInMs / 1000 : Nat) : Int)))
    (hpbdef : pbytes
      = stringifyBytes (SecureJWT.payloadJ data exp ((now / 1000 : Nat) : Int) h.version))
    (hivdef : iv = rt.randBytes h.ivLen)
    (hctdef : ct = (rt.encCore pbytes (SecureJWT.cipherKey h) iv (aadOf h.version)).1)
    (htagdef : tag = (rt.encCore pbytes (SecureJWT.cipherKey h) iv (aadOf h.version)).2)
    (hdata : ErrorHandler.validateData data = .ok ())
    (hexpbound : max 1 (((h.expireInMs / 1000 : Nat) : Int)) ≤ 31536000)
    (hplsize : pbytes.length ≤ 8192)
    (hkey : (SecureJWT.cipherKey h).length = 32)
    (htagne : tag ≠ []) :
    SecureJWT.sign h rt data now
      = .ok (b64Encode (stringifyBytes (SecureJWT.envelopeJ
          ⟨hexEncode ct, hexEncode iv, hexEncode tag⟩ exp ((now / 1000 : Nat) : Int)
          h.version))) := by
  subst hpbdef hivdef hctdef htagdef hexpdef
  have hkl : ErrorHandler.validateKeyLength (SecureJWT.cipherKey h) = .ok () := by
    unfold ErrorHandler.validateKeyLength
    rw [if_pos hkey]
  have hat : ErrorHandler.validateAuthTag
      (rt.encCore (stringifyBytes (SecureJWT.payloadJ data
          (((now / 1000 : Nat) : Int) + max 1 (((h.expireInMs / 1000 : Nat) : Int)))
          ((now / 1000 : Nat) : Int) h.version))
        (SecureJWT.cipherKey h) (rt.randBytes h.ivLen) (aadOf h.version)).2 = .ok () := by
    unfold ErrorHandler.validateAuthTag
    rw [if_neg (by simpa using htagne)]
  have hve : ErrorHandler.validateExpiration
      (((now / 1000 : Nat) : Int) + max 1 (((h.expireInMs / 1000 : Nat) : Int)))
      (((now / 1000 : Nat) : Int) + 365 * 24 * 60 * 60) = .ok () := by
    unfold ErrorHandler.validateExpiration
    rw [if_neg (by omega)]
  have hvp : ErrorHandler.validatePayloadSize
      (stringifyBytes (SecureJWT.payloadJ data
        (((now / 1000 : Nat) : Int) + max 1 (((h.expireInMs / 1000 : Nat) : Int)))
        ((now / 1000 : Nat) : Int) h.version)) = .ok () := by
    unfold ErrorHandler.validatePayloadSize
    rw [if_neg (by omega)]
  have henc : SecureJWT.encrypt h rt
      (stringifyBytes (SecureJWT.payloadJ data
        (((now / 1000 : Nat) : Int) + max 1 (((h.expireInMs / 1000 : Nat) : Int)))
        ((now / 1000 : Nat) : Int) h.version))
      = .ok ⟨hexEncode ((rt.encCore (stringifyBytes (SecureJWT.payloadJ data
            (((now / 1000 : Nat) : Int) + max 1 (((h.expireInMs / 1000 : Nat) : Int)))
            ((now / 1000 : Nat) : Int) h.version))
          (SecureJWT.cipherKey h) (rt.randBytes h.ivLen) (aadOf h.version)).1),
        hexEncode (rt.randBytes h.ivLen),
        hexEncode ((rt.encCore (stringifyBytes (SecureJWT.payloadJ data
            (((now / 1000 : Nat) : Int) + max 1 (((h.expireInMs / 1000 : Nat) : Int)))
            ((now / 1000 : Nat) : Int) h.version))
          (SecureJWT.cipherKey h) (rt.randBytes h.ivLen) (aadOf h.version)).2)⟩ := by
    unfold SecureJWT.encrypt SecureJWT.strategyEncrypt
    simp only [hkl, hat, Bind.bind, Except.bind]
  unfold SecureJWT.sign
  simp only [hdata, hve, hvp, henc, Bind.bind, Except.bind]

/-- Claim C2: `verify` is a total boolean function (its model returns a
`Bool` on every input), and whenever the validation pipeline fails —
whatever the stage and whatever the error — the pipeline-backed path
returns `false`; `verify` can answer `true` despite a failing pipeline
only by serving its `verifyCache`. -/
theorem C2_verify_fail_false (h : Handler) (rt : Rt) (token : String) (now : Nat)
    (e : SJError) (hp : SecureJWT.pipelineStrict h rt token now = .error e) :
    (SecureJWT.verifyCore h rt token now).2 = false
    ∧ ((SecureJWT.verify h rt token now).2 = true →
        (Cache.has h.verifyCache token now).2 = true) := by
  have hcore : ∀ h2 : Handler, h2.secretBuf = h.secretBuf → h2.version = h.version →
      (SecureJWT.verifyCore h2 rt token now).2 = false := by
    intro h2 hs hv
    unfold SecureJWT.verifyCore
    rw [pipelineStrict_cache_congr h2 h rt token now hs hv, hp]
  refine ⟨hcore h rfl rfl, ?_⟩
  intro htrue
  by_contra hfalse
  have hb : (Cache.has h.verifyCache token now).2 = false := by
    cases hx : (Cache.has h.verifyCache token now).2
    · rfl
    · exact absurd hx hfalse
  simp only [SecureJWT.verify, hb, Bool.false_eq_true, if_false] at htrue
  rw [hcore { h with verifyCache := (Cache.has h.verifyCache token now).1 } rfl rfl] at htrue
  exact absurd htrue (by simp)

/-- Claim C2, witness: the empty token fails the pipeline at its first
step, and `verify` on a fresh handler answers `false`. -/
theorem C2_witness :
    (SecureJWT.verifyCore h0 rt0 "" 0).2 = false
    ∧ ((SecureJWT.verify h0 rt0 "" 0).2 = true → (Cache.has h0.verifyCache "" 0).2 = true) :=
  C2_verify_fail_false h0 rt0 "" 0 .validation rfl

/-- Successful pipeline inversion: a pipeline pass implies the payload
expiry check passed and the payload fields equal the envelope fields. -/
theorem pipelineStrict_ok_inv (h : Handler) (rt : Rt) (token : String) (now : Nat)
    (td : TokenDataR) (pl : PayloadR)
    (hok : SecureJWT.pipelineStrict h rt token now = .ok (td, pl)) :
    ErrorHandler.checkTokenExpiration pl.exp now = .ok ()
    ∧ pl.version = td.version ∧ pl.exp = td.exp ∧ pl.iat = td.iat := by
  unfold SecureJWT.pipelineStrict at hok
  obtain ⟨a1, h1, hok⟩ := exceptBind_ok hok
  obtain ⟨a2, h2, hok⟩ := exceptBind_ok hok
  dsimp only at hok
  rcases hj1 : rt.jsonParse (b64DecodeBytes token) with _ | envJ <;> rw [hj1] at hok
  · simp [Bind.bind, Except.bind] at hok
  simp only [Bind.bind, Except.bind] at hok
  rcases h4 : ErrorHandler.validateTokenDataIntegrity envJ now with e4 | a4 <;> rw [h4] at hok
  · simp at hok
  dsimp only at hok
  rcases h5 : isValidTokenData envJ with _ | td2 <;> rw [h5] at hok
  · simp at hok
  dsimp only at hok
  rcases h6 : ErrorHandler.validateVersionCompatibility td2.version h.version with e6 | a6 <;>
    rw [h6] at hok
  · simp at hok
  dsimp only at hok
  rcases h7 : ErrorHandler.checkTokenExpiration td2.exp now with e7 | a7 <;> rw [h7] at hok
  · simp at hok
  dsimp only at hok
  rcases h8 : SecureJWT.decrypt h rt ⟨td2.encrypted, td2.iv, td2.tag⟩ with e8 | pt <;>
    rw [h8] at hok
  · simp at hok
  dsimp only at hok
  rcases h9 : rt.jsonParse pt with _ | plJ <;> rw [h9] at hok
  · simp at hok
  dsimp only at hok
  rcases h10 : isValidPayloadData plJ with _ | pl2 <;> rw [h10] at hok
  · simp at hok
  dsimp only at hok
  rcases h11 : ErrorHandler.validateVersionCompatibility pl2.version td2.version with e11 | a11 <;>
    rw [h11] at hok
  · simp at hok
  dsimp only at hok
  rcases h12 : ErrorHandler.checkTokenExpiration pl2.exp now with e12 | a12 <;> rw [h12] at hok
  · simp at hok
  dsimp only at hok
  rcases h13 : ErrorHandler.validateTokenTimestamps pl2.exp td2.exp pl2.iat td2.iat
    with e13 | a13 <;> rw [h13] at hok
  · simp at hok
  simp only [pure, Except.pure, Except.ok.injEq, Prod.mk.injEq] at hok
  obtain ⟨htd, hpl⟩ := hok
  subst htd
  subst hpl
  have hv : pl2.version = td2.version := by
    by_contra hc
    unfold ErrorHandler.validateVersionCompatibility at h11
    rw [if_pos hc] at h11
    exact absurd h11 (by simp)
  have hts : ¬ (pl2.exp ≠ td2.exp ∨ pl2.iat ≠ td2.iat) := by
    intro hc
    unfold ErrorHandler.validateTokenTimestamps at h13
    rw [if_pos hc] at h13
    exact absurd h13 (by simp)
  push_neg at hts
  exact ⟨h12, hv, hts.1, hts.2⟩


/-- Claim C7, amended: under a pipeline run that reaches the decrypted
payload, the payload-versus-envelope binding holds as claimed for the
version (mismatch raises `VersionMismatchError`) and success indeed
forces all three fields equal — but the error classes are not as
claimed: the payload expiry check runs before the timestamp binding,
so a mismatched `exp` lying in the past raises `TokenExpiredError`,
and only a non-expired timestamp mismatch raises `ValidationError`. -/
theorem C7_amended (h : Handler) (rt : Rt) (token : String) (now : Nat)
    (envJ plJ : JVal) (td : TokenDataR) (pt : Bytes) (pl : PayloadR)
    (s1 : ErrorHandler.validateToken token = .ok ())
    (s2 : ErrorHandler.validateTokenIntegrity token = .ok ())
    (s3 : rt.jsonParse (b64DecodeBytes token) = some envJ)
    (s4 : ErrorHandler.validateTokenDataIntegrity envJ now = .ok ())
    (s5 : isValidTokenData envJ = some td)
    (s6 : ErrorHandler.validateVersionCompatibility td.version h.version = .ok ())
    (s7 : ErrorHandler.checkTokenExpiration td.exp now = .ok ())
    (s8 : SecureJWT.decrypt h rt ⟨td.encrypted, td.iv, td.tag⟩ = .ok pt)
    (s9 : rt.jsonParse pt = some plJ)
    (s10 : isValidPayloadData plJ = some pl) :
    (pl.version ≠ td.version →
      SecureJWT.verifyStrict h rt token now = .error .versionMismatch
        ∧ (SecureJWT.decodeCore h rt token now).2 = .error .versionMismatch
        ∧ (SecureJWT.verifyCore h rt token now).2 = false)
    ∧ (pl.version = td.version → pl.exp < ((now / 1000 : Nat) : Int) →
      SecureJWT.verifyStrict h rt token now = .error .tokenExpired
        ∧ (SecureJWT.decodeCore h rt token now).2 = .error .tokenExpired
        ∧ (SecureJWT.verifyCore h rt token now).2 = false)
    ∧ (pl.version = td.version → ((now / 1000 : Nat) : Int) ≤ pl.exp →
        (pl.exp ≠ td.exp ∨ pl.iat ≠ td.iat) →
      SecureJWT.verifyStrict h rt token now = .error .validation
        ∧ (SecureJWT.decodeCore h rt token now).2 = .error .validation
        ∧ (SecureJWT.verifyCore h rt token now).2 = false)
    ∧ (pl.version = td.version → ((now / 1000 : Nat) : Int) ≤ pl.exp →
        pl.exp = td.exp → pl.iat = td.iat →
      SecureJWT.pipelineStrict h rt token now = .ok (td, pl))
    ∧ (∀ td2 pl2, SecureJWT.pipelineStrict h rt token now = .ok (td2, pl2) →
        pl2.version = td2.version ∧ pl2.exp = td2.exp ∧ pl2.iat = td2.iat) := by
  have htail := pipeline_tail_eq h rt token now envJ plJ td pt pl
    s1 s2 s3 s4 s5 s6 s7 s8 s9 s10
  have hpipeE : ∀ er : SJError, SecureJWT.pipelineStrict h rt token now = .error er →
      SecureJWT.verifyStrict h rt token now = .error er
      ∧ (SecureJWT.decodeCore h rt token now).2 = .error (SecureJWT.decodeWrap er)
      ∧ (SecureJWT.verifyCore h rt token now).2 = false := by
    intro er he
    refine ⟨?_, ?_, ?_⟩
    · unfold SecureJWT.verifyStrict
      rw [he]
      rfl
    · unfold SecureJWT.decodeCore
      rw [he]
    · unfold SecureJWT.verifyCore
      rw [he]
  refine ⟨?_, ?_, ?_, ?_, ?_⟩
  · intro hv
    have hvvc : ErrorHandler.validateVersionCompatibility pl.version td.version
        = .error .versionMismatch := by
      unfold ErrorHandler.validateVersionCompatibility
      rw [if_pos hv]
    have hpe : SecureJWT.pipelineStrict h rt token now = .error .versionMismatch := by
      rw [htail]
      simp only [hvvc, Bind.bind, Except.bind]
    simpa [SecureJWT.decodeWrap] using hpipeE .versionMismatch hpe
  · intro hveq hlt
    have hvvc : ErrorHandler.validateVersionCompatibility pl.version td.version = .ok () := by
      unfold ErrorHandler.validateVersionCompatibility
      rw [if_neg (by simp [hveq])]
    have hcte : ErrorHandler.checkTokenExpiration pl.exp now = .error .tokenExpired := by
      unfold ErrorHandler.checkTokenExpiration
      rw [if_pos hlt]
    have hpe : SecureJWT.pipelineStrict h rt token now = .error .tokenExpired := by
      rw [htail]
      simp only [hvvc, hcte, Bind.bind, Except.bind]
    simpa [SecureJWT.decodeWrap] using hpipeE .tokenExpired hpe
  · intro hveq hge hne
    have hvvc : ErrorHandler.validateVersionCompatibility pl.version td.version = .ok () := by
      unfold ErrorHandler.validateVersionCompatibility
      rw [if_neg (by simp [hveq])]
    have hcte : ErrorHandler.checkTokenExpiration pl.exp now = .ok () := by
      unfold ErrorHandler.checkTokenExpiration
      rw [if_neg (by omega)]
    have hts : ErrorHandler.validateTokenTimestamps pl.exp td.exp pl.iat td.iat
        = .error .validation := by
      unfold ErrorHandler.validateTokenTimestamps
      rw [if_pos hne]
    have hpe : SecureJWT.pipelineStrict h rt token now = .error .validation := by
      rw [htail]
      simp only [hvvc, hcte, hts, Bind.bind, Except.bind]
    simpa [SecureJWT.decodeWrap] using hpipeE .validation hpe
  · intro hveq hge he1 he2
    have hvvc : ErrorHandler.validateVersionCompatibility pl.version td.version = .ok () := by
      unfold ErrorHandler.validateVersionCompatibility
      rw [if_neg (by simp [hveq])]
    have hcte : ErrorHandler.checkTokenExpiration pl.exp now = .ok () := by
      unfold ErrorHandler.checkTokenExpiration
      rw [if_neg (by omega)]
    have hts : ErrorHandler.validateTokenTimestamps pl.exp td.exp pl.iat td.iat = .ok () := by
      unfold ErrorHandler.validateTokenTimestamps
      rw [if_neg (by simp [he1, he2])]
    rw [htail]
    simp only [hvvc, hcte, hts, Bind.bind, Except.bind]
    rfl
  · intro td2 pl2 hk
    obtain ⟨_, hva, hvb, hvc⟩ := pipelineStrict_ok_inv h rt token now td2 pl2 hk
    exact ⟨hva, hvb, hvc⟩

set_option maxRecDepth 40000 in
/-- Stage fact: the spliced token parses back to its envelope. -/
theorem c7_stage3 : rt7.jsonParse (b64DecodeBytes tok7) = some env7 := by
  rw [show b64DecodeBytes tok7 = stringifyBytes env7 from
    b64DecodeBytes_b64Encode _ (by decide)]
  rfl

set_option maxRecDepth 40000 in
/-- The spliced-token pipeline dies on the payload expiry check, not on
the later timestamp binding. -/
theorem c7_pipeline : SecureJWT.pipelineStrict h0 rt7 tok7 now7 = .error .tokenExpired := by
  have htail := pipeline_tail_eq h0 rt7 tok7 now7 env7 pl7 td7 plBytes7 plR7
    rfl rfl c7_stage3 rfl rfl rfl rfl rfl rfl rfl
  rw [htail]
  rfl

set_option maxRecDepth 40000 in
/-- Claim C7, counterexample: a spliced token whose inner `exp` (1400)
differs from the envelope `exp` (2000) and lies in the past is rejected
with `TokenExpiredError`, not with the claimed `ValidationError` for
the timestamp mismatch; `verify` still answers `false`. -/
theorem C7_counterexample :
    plR7.exp ≠ td7.exp
    ∧ SecureJWT.verifyStrict h0 rt7 tok7 now7 = .error .tokenExpired
    ∧ (SecureJWT.decode h0 rt7 tok7 now7).2 = .error .tokenExpired
    ∧ (SecureJWT.verify h0 rt7 tok7 now7).2 = false := by
  have hp := c7_pipeline
  refine ⟨by decide, ?_, ?_, ?_⟩
  · unfold SecureJWT.verifyStrict
    rw [hp]
    rfl
  · have hhas := cacheHas_nil h0.payloadCache tok7 now7 rfl
    simp only [SecureJWT.decode, hhas, Bool.false_eq_true, if_false]
    rw [show ({ h0 with payloadCache := h0.payloadCache } : Handler) = h0 from rfl]
    unfold SecureJWT.decodeCore
    rw [hp]
    rfl
  · have hhas := cacheHas_nil h0.verifyCache tok7 now7 rfl
    simp only [SecureJWT.verify, hhas, Bool.false_eq_true, if_false]
    rw [show ({ h0 with verifyCache := h0.verifyCache } : Handler) = h0 from rfl]
    unfold SecureJWT.verifyCore
    rw [hp]

set_option maxRecDepth 40000 in
/-- Claim C7, witness for the amended theorem, at the spliced token:
equal versions, past mismatched payload expiry, `TokenExpiredError`. -/
theorem C7_witness :
    SecureJWT.verifyStrict h0 rt7 tok7 now7 = .error .tokenExpired
    ∧ (SecureJWT.decodeCore h0 rt7 tok7 now7).2 = .error .tokenExpired
    ∧ (SecureJWT.verifyCore h0 rt7 tok7 now7).2 = false :=
  (C7_amended h0 rt7 tok7 now7 env7 pl7 td7 plBytes7 plR7
    rfl rfl c7_stage3 rfl rfl rfl rfl rfl rfl rfl).2.1 rfl (by decide)

set_option maxRecDepth 40000 in
/-- Stage fact: the stale-cache token parses back to its envelope. -/
theorem c10_stage3 : rtA.jsonParse (b64DecodeBytes tokA) = some envA := by
  rw [show b64DecodeBytes tokA = stringifyBytes envA from
    b64DecodeBytes_b64Encode _ (by decide)]
  rfl

set_option maxRecDepth 40000 in
/-- The stale-cache token passes the full pipeline at millisecond 1999
(second 1, its expiry second). -/
theorem c10run1 : SecureJWT.pipelineStrict h0 rtA tokA 1999 = .ok (tdA, plRA) := by
  have htail := pipeline_tail_eq h0 rtA tokA 1999 envA plA tdA plBytesA plRA
    rfl rfl c10_stage3 rfl rfl rfl rfl rfl rfl rfl
  rw [htail]
  rfl

/-- The entry `Cache.set` writes is retrievable under its key. -/
theorem mapFind_cacheSet_self {T : Type} (st : CacheSt T) (k : String) (v : T)
    (ttl : Option Nat) (now : Nat) :
    mapFind (Cache.set st k v ttl now).entries k
      = some ⟨v, now + max 1 (ttl.getD st.defaultTTL), now, 1⟩ := by
  unfold Cache.set
  exact mapFind_mapSet_self _ _ _

/-- Claim C10, amended: a pipeline pass at `now1` implies the token's
payload expiry second is at least `now1`'s second, and any later
cache-served `true` for that token happens at most 1000 milliseconds
past the payload expiry instant `exp * 1000` — the spec's "never past
the expiry second" weakens to a one-second stale window, because the
cached TTL `max(0, exp*1000 - now1)` is floored to 1ms and `now1` can
already sit up to 999ms past `exp * 1000`. -/
theorem C10_amended (h : Handler) (rt : Rt) (token : String) (now1 : Nat)
    (td : TokenDataR) (pl : PayloadR)
    (hok : SecureJWT.pipelineStrict h rt token now1 = .ok (td, pl)) :
    ((now1 / 1000 : Nat) : Int) ≤ pl.exp
    ∧ ∀ now2 : Nat,
        (Cache.has (SecureJWT.verifyCore h rt token now1).1.verifyCache token now2).2 = true →
        (now2 : Int) ≤ pl.exp * 1000 + 1000 := by
  obtain ⟨hcte, hv0, he0, hi0⟩ := pipelineStrict_ok_inv h rt token now1 td pl hok
  have hle : ((now1 / 1000 : Nat) : Int) ≤ pl.exp := by
    by_contra hc
    push_neg at hc
    unfold ErrorHandler.checkTokenExpiration at hcte
    rw [if_pos hc] at hcte
    exact absurd hcte (by simp)
  refine ⟨hle, ?_⟩
  intro now2 hhas
  simp only [SecureJWT.verifyCore, hok] at hhas
  obtain ⟨e, hfind, hle2⟩ := cacheHas_true_inv _ _ _ hhas
  rw [mapFind_cacheSet_self] at hfind
  have he : e = ⟨true, now1 + max 1 ((pl.exp * 1000 - (now1 : Int)).toNat), now1, 1⟩ := by
    injection hfind with hf
    exact hf.symm
  have hexp : e.expiresAt = now1 + max 1 ((pl.exp * 1000 - (now1 : Int)).toNat) := by
    rw [he]
  omega

set_option maxRecDepth 40000 in
/-- Claim C10, witness for the amended theorem: the stale-cache token
passes at millisecond 1999, whose second (1) is its expiry second. -/
theorem C10_witness : ((1999 / 1000 : Nat) : Int) ≤ plRA.exp :=
  (C10_amended h0 rtA tokA 1999 tdA plRA c10run1).1

/-- `verify` answers a cached `true` without running the pipeline. -/
theorem verify_cached_true (h : Handler) (rt : Rt) (token : String) (now : Nat)
    (st2 st3 : CacheSt Bool)
    (hhs : Cache.has h.verifyCache token now = (st2, true))
    (hgt : Cache.get st2 token now = (st3, some true)) :
    (SecureJWT.verify h rt token now).2 = true := by
  simp only [SecureJWT.verify, hhs]
  rw [hgt]
  simp

set_option maxRecDepth 40000 in
/-- Claim C10, counterexample: the pipeline passes at millisecond 1999
and caches `true` with the floored TTL 1ms (entry expires at 2000);
at millisecond 2000 — current second 2, strictly past the payload
expiry second 1 — the cache still serves `true`. -/
theorem C10_counterexample :
    plRA.exp = 1
    ∧ (SecureJWT.verify h0 rtA tokA 1999).2 = true
    ∧ (SecureJWT.verify (SecureJWT.verify h0 rtA tokA 1999).1 rtA tokA 2000).2 = true
    ∧ plRA.exp < ((2000 / 1000 : Nat) : Int) := by
  have hp := c10run1
  have hhas1 := cacheHas_nil h0.verifyCache tokA 1999 rfl
  have httl : ((plRA.exp * 1000 - ((1999 : Nat) : Int)).toNat) = 0 := by decide
  have hset : Cache.set h0.verifyCache tokA true (some 0) 1999
      = (⟨[(tokA, ⟨true, 2000, 1999, 1⟩)], 1000, 3600000⟩ : CacheSt Bool) := by rfl
  have hv1b : (SecureJWT.verify h0 rtA tokA 1999).2 = true := by
    simp only [SecureJWT.verify, hhas1, Bool.false_eq_true, if_false]
    rw [show ({ h0 with verifyCache := h0.verifyCache } : Handler) = h0 from rfl]
    simp only [SecureJWT.verifyCore, hp]
  have hv1s : (SecureJWT.verify h0 rtA tokA 1999).1.verifyCache
      = (⟨[(tokA, ⟨true, 2000, 1999, 1⟩)], 1000, 3600000⟩ : CacheSt Bool) := by
    simp only [SecureJWT.verify, hhas1, Bool.false_eq_true, if_false]
    rw [show ({ h0 with verifyCache := h0.verifyCache } : Handler) = h0 from rfl]
    simp only [SecureJWT.verifyCore, hp, httl, hset]
  have hfind2 : mapFind [(tokA, (⟨true, 2000, 1999, 1⟩ : CEntry Bool))] tokA
      = some ⟨true, 2000, 1999, 1⟩ := by
    unfold mapFind
    rw [List.find?_cons_of_pos _ (by simp)]
    rfl
  have hhas2 : Cache.has (⟨[(tokA, ⟨true, 2000, 1999, 1⟩)], 1000, 3600000⟩ : CacheSt Bool)
      tokA 2000
      = (⟨[(tokA, ⟨true, 2000, 1999, 2⟩)], 1000, 3600000⟩, true) := by
    unfold Cache.has
    rw [show mapFind ((⟨[(tokA, ⟨true, 2000, 1999, 1⟩)], 1000,
        3600000⟩ : CacheSt Bool)).entries tokA = some ⟨true, 2000, 1999, 1⟩ from hfind2]
    dsimp only
    rw [if_neg (by omega)]
    simp [mapSet]
  have hfind3 : mapFind [(tokA, (⟨true, 2000, 1999, 2⟩ : CEntry Bool))] tokA
      = some ⟨true, 2000, 1999, 2⟩ := by
    unfold mapFind
    rw [List.find?_cons_of_pos _ (by simp)]
    rfl
  have hget2 : Cache.get (⟨[(tokA, ⟨true, 2000, 1999, 2⟩)], 1000, 3600000⟩ : CacheSt Bool)
      tokA 2000
      = (⟨[(tokA, ⟨true, 2000, 1999, 3⟩)], 1000, 3600000⟩, some true) := by
    unfold Cache.get
    rw [show mapFind ((⟨[(tokA, ⟨true, 2000, 1999, 2⟩)], 1000,
        3600000⟩ : CacheSt Bool)).entries tokA = some ⟨true, 2000, 1999, 2⟩ from hfind3]
    dsimp only
    rw [if_neg (by omega)]
    simp [mapSet]
  refine ⟨rfl, hv1b, ?_, by decide⟩
  exact verify_cached_true _ rtA tokA 2000 _ _ (by rw [hv1s]; exact hhas2) hget2

/-- `decodeCore` yields the decrypted payload data on a pipeline pass. -/
theorem decodeCore_pipe_ok (h : Handler) (rt : Rt) (token : String) (now : Nat)
    (td : TokenDataR) (pl : PayloadR)
    (hok : SecureJWT.pipelineStrict h rt token now = .ok (td, pl)) :
    (SecureJWT.decodeCore h rt token now).2 = .ok pl.data := by
  simp only [SecureJWT.decodeCore, hok]

/-- `decode` on a payload-cache miss yields the decrypted payload data
whenever the pipeline passes. -/
theorem decode_miss_ok (h : Handler) (rt : Rt) (token : String) (now : Nat)
    (hmiss : (Cache.has h.payloadCache token now).2 = false)
    (td : TokenDataR) (pl : PayloadR)
    (hok : SecureJWT.pipelineStrict h rt token now = .ok (td, pl)) :
    (SecureJWT.decode h rt token now).2 = .ok pl.data := by
  simp only [SecureJWT.decode, hmiss, Bool.false_eq_true, if_false]
  exact decodeCore_pipe_ok _ rt token now td pl
    ((pipelineStrict_cache_congr _ h rt token now rfl rfl).trans hok)

/-- Claim C1, counterexample: the empty string is JSON-serializable,
non-null and far below 8KB, yet `sign` rejects it with a
`ValidationError` (`validateData` has an explicit empty-string check
next to its null/undefined check), so `decode(sign(data)) == data`
fails for it. -/
theorem C1_counterexample :
    ErrorHandler.validateData (JVal.jstr "") = .error .validation
    ∧ SecureJWT.sign h0 rt0 (JVal.jstr "") now0 = .error .validation :=
  ⟨rfl, rfl⟩

/-- Claim C1, amended: for data that `validateData` accepts (anything
but `null`/`undefined` and the empty string — numbers and booleans,
`0` and `false` included, pass), the sign/decode round-trip holds
under the collaborator contracts `sign` and `decode` rely on:
the cipher core inverts itself on the drawn IV and produced tag, hex
and base64 transport is byte-clean, `JSON.parse` inverts the two
serializations produced, the expiry window fits a year, the payload
fits 8KB, the token length lands in 10..100000, and the payload cache
does not already hold the token. -/
theorem C1_amended (h : Handler) (rt : Rt) (data : JVal) (now : Nat)
    (exp iat : Int) (pbytes iv ct tag : Bytes) (env : JVal) (tok : String)
    (hiat : iat = ((now / 1000 : Nat) : Int))
    (hexpdef : exp = iat + max 1 (((h.expireInMs / 1000 : Nat) : Int)))
    (hpb : pbytes = stringifyBytes (SecureJWT.payloadJ data exp iat h.version))
    (hivdef : iv = rt.randBytes h.ivLen)
    (hctdef : ct = (rt.encCore pbytes (SecureJWT.cipherKey h) iv (aadOf h.version)).1)
    (htagdef : tag = (rt.encCore pbytes (SecureJWT.cipherKey h) iv (aadOf h.version)).2)
    (henvdef : env = SecureJWT.envelopeJ ⟨hexEncode ct, hexEncode iv, hexEncode tag⟩
      exp iat h.version)
    (htokdef : tok = b64Encode (stringifyBytes env))
    (hdata : ErrorHandler.validateData data = .ok ())
    (hexpbound : max 1 (((h.expireInMs / 1000 : Nat) : Int)) ≤ 31536000)
    (hplsize : pbytes.length ≤ 8192)
    (hkey : (SecureJWT.cipherKey h).length = 32)
    (hiatpos : 0 < iat)
    (hver : h.version.data.length ≠ 0)
    (hctne : ct ≠ [])
    (hivlen : iv.length = 12 ∨ iv.length = 16)
    (htaglen : tag.length = 16)
    (hctb : ∀ b ∈ ct, b < 256)
    (htagb : ∀ b ∈ tag, b < 256)
    (hivb : ∀ b ∈ iv, b < 256)
    (henvb : ∀ b ∈ stringifyBytes env, b < 256)
    (htlo : 10 ≤ (b64EncodeChars (stringifyBytes env)).length)
    (hthi : (b64EncodeChars (stringifyBytes env)).length ≤ 100000)
    (hdec : rt.decCore ct (SecureJWT.cipherKey h) iv tag (aadOf h.version) = some pbytes)
    (hpe : rt.jsonParse (stringifyBytes env) = some env)
    (hpp : rt.jsonParse pbytes = some (SecureJWT.payloadJ data exp iat h.version))
    (hmiss : (Cache.has h.payloadCache tok now).2 = false) :
    SecureJWT.sign h rt data now = .ok tok
    ∧ (SecureJWT.decode h rt tok now).2 = .ok data := by
  have htagne : tag ≠ [] := by
    intro hn
    rw [hn] at htaglen
    simp at htaglen
  have hsign := sign_ok h rt data now exp pbytes iv ct tag (by rw [hexpdef, hiat])
    (by rw [hpb, hiat]) hivdef hctdef htagdef hdata hexpbound hplsize hkey htagne
  have hivne : iv ≠ [] := by
    intro hn
    rw [hn] at hivlen
    simp at hivlen
  have s1 : ErrorHandler.validateToken tok = .ok () := by
    have hd : tok.data = b64EncodeChars (stringifyBytes env) := by
      rw [htokdef]
      rfl
    unfold ErrorHandler.validateToken
    rw [hd, if_neg (by omega)]
  have s2 : ErrorHandler.validateTokenIntegrity tok = .ok () := by
    rw [htokdef]
    exact validateTokenIntegrity_b64Encode _ henvb htlo hthi
  have hbea : b64DecodeBytes tok = stringifyBytes env := by
    rw [htokdef]
    exact b64DecodeBytes_b64Encode _ henvb
  have s3 : rt.jsonParse (b64DecodeBytes tok) = some env := by
    rw [hbea]
    exact hpe
  have s4 : ErrorHandler.validateTokenDataIntegrity env now = .ok () := by
    rw [henvdef]
    exact validateTokenDataIntegrity_envelopeJ ⟨hexEncode ct, hexEncode iv, hexEncode tag⟩
      exp iat h.version now (hexEncode_data_length_ne ct hctne)
      (hexEncode_data_length_ne iv hivne) (hexEncode_data_length_ne tag htagne)
      (by omega) hiatpos hver (by omega) (by omega) (by omega)
  have s5 : isValidTokenData env
      = some ⟨hexEncode ct, hexEncode iv, hexEncode tag, exp, iat, h.version⟩ := by
    rw [henvdef]
    exact isValidTokenData_envelopeJ ⟨hexEncode ct, hexEncode iv, hexEncode tag⟩
      exp iat h.version
  have s6 : ErrorHandler.validateVersionCompatibility h.version h.version = .ok () := by
    unfold ErrorHandler.validateVersionCompatibility
    rw [if_neg (by simp)]
  have s7 : ErrorHandler.checkTokenExpiration exp now = .ok () := by
    unfold ErrorHandler.checkTokenExpiration
    rw [if_neg (by omega)]
  have s8 : SecureJWT.decrypt h rt ⟨hexEncode ct, hexEncode iv, hexEncode tag⟩
      = .ok pbytes :=
    decrypt_hex_ok h rt ct iv tag pbytes hkey hivlen hivb htaglen htagb hctb hdec
  have s10 : isValidPayloadData (SecureJWT.payloadJ data exp iat h.version)
      = some ⟨data, exp, iat, h.version⟩ :=
    isValidPayloadData_payloadJ data exp iat h.version
  have htail := pipeline_tail_eq h rt tok now env (SecureJWT.payloadJ data exp iat h.version)
    ⟨hexEncode ct, hexEncode iv, hexEncode tag, exp, iat, h.version⟩ pbytes
    ⟨data, exp, iat, h.version⟩ s1 s2 s3 s4 s5 s6 s7 s8 hpp s10
  have hpipe : SecureJWT.pipelineStrict h rt tok now
      = .ok (⟨hexEncode ct, hexEncode iv, hexEncode tag, exp, iat, h.version⟩,
          ⟨data, exp, iat, h.version⟩) := by
    rw [htail]
    have t1 : ErrorHandler.validateVersionCompatibility h.version h.version = .ok () := s6
    have t3 : ErrorHandler.validateTokenTimestamps exp exp iat iat = .ok () := by
      unfold ErrorHandler.validateTokenTimestamps
      rw [if_neg (by simp)]
    simp only [t1, s7, t3, Bind.bind, Except.bind]
    rfl
  constructor
  · rw [htokdef, henvdef, hiat]
    exact hsign
  · exact decode_miss_ok h rt tok now hmiss _ _ hpipe

set_option maxRecDepth 100000 in
/-- Claim C1, witness for the amended theorem: the concrete example run
signs `"hi"` at millisecond 1000000999 and decodes the token back. -/
theorem C1_witness :
    SecureJWT.sign h0 rt0 data0 now0 = .ok tok0
    ∧ (SecureJWT.decode h0 rt0 tok0 now0).2 = .ok data0 :=
  C1_amended h0 rt0 data0 now0 exp0 iat0 plBytes0 iv0 plBytes0 tag0 env0 tok0
    rfl rfl rfl rfl rfl rfl rfl rfl
    rfl (by decide) (by decide) rfl (by decide) (by decide) (by decide)
    (Or.inr rfl) rfl (by decide) (by decide) (by decide) (by decide)
    (by decide) (by decide) rfl rfl rfl rfl

end SJ
